import Mathlib

/-!
# Image::Scale, src/image.c: decode / resize orchestration

A shallow embedding of the four functions of image.c
(image_init, image_alloc, image_resize, image_finish) and of the blocks inside
them that the specification talks about.

Conventions of the embedding

* C int is a 32-bit two's complement integer: values are Int, every int
  operation of the source is followed by an explicit reduction (to_int).
* Pointers are Option Nat: none is NULL, some a is the address a.
* The heap is a fresh-address counter and a chronological log of the memory
  events the source performs (New, Zero, Safefree, buffer_free, ...).
* croak is a non-local exit: a Result is either ok with the state reached, or
  croak with the error and the state at the point of the croak.
* float and double are IEEE 754 binary32 and binary64 values under
  round-to-nearest-even, every operation rounded to its own format
  (FLT_EVAL_METHOD 0); a finite nonzero value is carried as the rational it
  denotes.
* New(0, p, n, type) returns a fresh block for every count n >= 0 (the heap of
  the model is unbounded); for a negative count it does not return.
-/

namespace ImageScale

/-! ## Machine integers -/

/-- Reduction of an integer to the 32-bit two's complement range of C int. -/
def to_int (x : Int) : Int := (x + 2147483648) % 4294967296 - 2147483648

/-- Conversion of an integer to size_t (64-bit unsigned). -/
def to_size_t (x : Int) : Int := x % 18446744073709551616

/-- The int addition of the source. -/
def int_add (a b : Int) : Int := to_int (a + b)

/-- The int multiplication of the source. -/
def int_mul (a b : Int) : Int := to_int (a * b)

/-- The expression  a * b * sizeof(pix)  assigned to an int: the product a * b
is an int product, the product with sizeof is taken in size_t, and the result is
converted back to int.  The parameter ps is sizeof(pix) (image.h is not part of
the sources). -/
def pix_bytes (ps : Nat) (a b : Int) : Int :=
  to_int (to_size_t (to_size_t (int_mul a b) * (ps : Int)))

/-- The integer part of a rational, truncated toward zero: the value of the C
cast (int) on a finite floating value within the int range. -/
def int_of_float (q : ℚ) : Int := Int.tdiv q.num (q.den : Int)

/-! ## Floating point

The values and operations of float and double that the padding block of
image_resize uses. -/

/-- A floating value: NaN, an infinity, a signed zero, or a finite nonzero
number given by the rational it denotes. -/
inductive fval where
  | nan
  | inf (neg : Bool)
  | zero (neg : Bool)
  | num (q : ℚ)
  deriving DecidableEq

/-- Rounding of a rational to the nearest integer, ties to the even one. -/
def round_even (y : ℚ) : Int :=
  if y - (⌊y⌋ : ℚ) < 1 / 2 then ⌊y⌋
  else if 1 / 2 < y - (⌊y⌋ : ℚ) then ⌊y⌋ + 1
  else if ⌊y⌋ % 2 = 0 then ⌊y⌋ else ⌊y⌋ + 1

/-- A binary floating-point format: the precision in bits, the exponent of the
smallest positive (subnormal) value, and the exponent of the overflow
threshold. -/
structure fmt where
  prec : Nat
  emin : Int
  emax : Int

/-- The type float: IEEE 754 binary32. -/
def binary32 : fmt := ⟨24, -149, 128⟩

/-- The type double: IEEE 754 binary64. -/
def binary64 : fmt := ⟨53, -1074, 1024⟩

/-- The exponent of the unit in the last place of the format at x. -/
def fmt.ulp_exp (f : fmt) (x : ℚ) : Int := max (Int.log 2 |x| - ((f.prec : Int) - 1)) f.emin

/-- Rounding of a rational to the nearest multiple of the unit in the last
place, ties to even. -/
def fmt.round (f : fmt) (x : ℚ) : ℚ :=
  (round_even (x / (2 : ℚ) ^ f.ulp_exp x) : ℚ) * (2 : ℚ) ^ f.ulp_exp x

/-- The floating value of an exact result x: overflow gives an infinity,
rounding to zero gives the zero of the sign of x. -/
def fmt.of_rat (f : fmt) (x : ℚ) : fval :=
  if (2 : ℚ) ^ f.emax ≤ |f.round x| then fval.inf (decide (x < 0))
  else if f.round x = 0 then fval.zero (decide (x < 0))
  else fval.num (f.round x)

/-- The sign bit of a floating value. -/
def fval.neg : fval → Bool
  | fval.nan => false
  | fval.inf b => b
  | fval.zero b => b
  | fval.num q => decide (q < 0)

/-- The rational a finite floating value denotes (0 for the others). -/
def fval.val : fval → ℚ
  | fval.num q => q
  | _ => 0

/-- The floating division x / y. -/
def fmt.div (f : fmt) : fval → fval → fval
  | fval.nan, _ => fval.nan
  | _, fval.nan => fval.nan
  | fval.inf _, fval.inf _ => fval.nan
  | fval.inf a, y => fval.inf (xor a y.neg)
  | fval.zero _, fval.zero _ => fval.nan
  | fval.zero a, y => fval.zero (xor a y.neg)
  | fval.num p, fval.inf b => fval.zero (xor (decide (p < 0)) b)
  | fval.num p, fval.zero b => fval.inf (xor (decide (p < 0)) b)
  | fval.num p, fval.num q => f.of_rat (p / q)

/-- The floating multiplication x * y. -/
def fmt.mul (f : fmt) : fval → fval → fval
  | fval.nan, _ => fval.nan
  | _, fval.nan => fval.nan
  | fval.inf _, fval.zero _ => fval.nan
  | fval.zero _, fval.inf _ => fval.nan
  | fval.inf a, y => fval.inf (xor a y.neg)
  | x, fval.inf b => fval.inf (xor x.neg b)
  | fval.zero a, y => fval.zero (xor a y.neg)
  | x, fval.zero b => fval.zero (xor x.neg b)
  | fval.num p, fval.num q => f.of_rat (p * q)

/-- The floating subtraction x - y. -/
def fmt.sub (f : fmt) : fval → fval → fval
  | fval.nan, _ => fval.nan
  | _, fval.nan => fval.nan
  | fval.inf a, fval.inf b => if a = b then fval.nan else fval.inf a
  | fval.inf a, _ => fval.inf a
  | _, fval.inf b => fval.inf (!b)
  | fval.zero a, fval.zero b => fval.zero (a && !b)
  | fval.zero _, fval.num q => fval.num (-q)
  | fval.num p, fval.zero _ => fval.num p
  | fval.num p, fval.num q => if p - q = 0 then fval.zero false else f.of_rat (p - q)

/-- The floating comparison x >= y: false when an operand is NaN. -/
def fval.ge : fval → fval → Bool
  | fval.nan, _ => false
  | _, fval.nan => false
  | fval.inf a, fval.inf b => !a || b
  | fval.inf a, _ => !a
  | _, fval.inf b => b
  | x, y => decide (x.val ≥ y.val)

/-- The conversion of an int to the format. -/
def fmt.of_int (f : fmt) (n : Int) : fval :=
  if n = 0 then fval.zero false else f.of_rat (n : ℚ)

/-- The conversion of a floating value of a wider format to the format. -/
def fmt.cvt (f : fmt) : fval → fval
  | fval.num q => f.of_rat q
  | v => v

/-- The C cast (int) of a float: truncation toward zero; for NaN, an infinity
or a value outside the int range the conversion instruction of x86-64 yields
INT_MIN. -/
def fval.cast_int : fval → Int
  | fval.num q =>
    if -2147483648 ≤ int_of_float q ∧ int_of_float q < 2147483648 then int_of_float q
    else -2147483648
  | fval.zero _ => 0
  | _ => -2147483648

/-! ## Data model -/

/-- Values of im->type. -/
inductive image_type where
  | UNKNOWN
  | JPEG
  | PNG
  | GIF
  | BMP
  deriving DecidableEq, Repr

/-- Values of im->resize_type: the four named constants of image.h, or any other
int. -/
inductive resize_type where
  | IMAGE_SCALE_TYPE_GD
  | IMAGE_SCALE_TYPE_GD_FIXED
  | IMAGE_SCALE_TYPE_GM
  | IMAGE_SCALE_TYPE_GM_FIXED
  | other (n : Int)
  deriving DecidableEq, Repr

/-- The header Buffer: the bytes appended so far, and the content of the
storage behind them (buffer_init allocates 1024 bytes and does not initialise
them). -/
structure Buffer where
  data : List Nat
  uninit : Nat → Nat

/-- The raw read pointer of a Buffer: bptr[i]. -/
def buffer_ptr (b : Buffer) (i : Nat) : Nat := b.data.getD i (b.uninit i)

/-- The type classification of image_init (lines 100-125): the switch on
bptr[0] with the signature tests of each case. -/
def sniff (bptr : Nat → Nat) : image_type :=
  if bptr 0 = 0xff then
    if bptr 1 = 0xd8 ∧ bptr 2 = 0xff then image_type.JPEG else image_type.UNKNOWN
  else if bptr 0 = 0x89 then
    if bptr 1 = 'P'.toNat ∧ bptr 2 = 'N'.toNat ∧ bptr 3 = 'G'.toNat
        ∧ bptr 4 = 0x0d ∧ bptr 5 = 0x0a ∧ bptr 6 = 0x1a ∧ bptr 7 = 0x0a then
      image_type.PNG
    else image_type.UNKNOWN
  else if bptr 0 = 'G'.toNat then
    if bptr 1 = 'I'.toNat ∧ bptr 2 = 'F'.toNat ∧ bptr 3 = '8'.toNat
        ∧ (bptr 4 = '7'.toNat ∨ bptr 4 = '9'.toNat) ∧ bptr 5 = 'a'.toNat then
      image_type.GIF
    else image_type.UNKNOWN
  else if bptr 0 = 'B'.toNat then
    if bptr 1 = 'M'.toNat then image_type.BMP else image_type.UNKNOWN
  else image_type.UNKNOWN

/-- Backend-owned decode state: the fields cinfo, png_ptr, info_ptr and gif of
the image struct. -/
structure Codec where
  cinfo : Option Nat
  png_ptr : Option Nat
  info_ptr : Option Nat
  gif : Option Nat
  deriving DecidableEq, Repr

/-- The image struct (image.h), with the fields image.c reads or writes. -/
structure image where
  buf : Option Nat
  fh : Option (List Nat)
  sv_data : List Nat
  sv_offset : Int
  pixbuf : Option Nat
  outbuf : Option Nat
  type : image_type
  width : Int
  height : Int
  width_padding : Int
  width_inner : Int
  height_padding : Int
  height_inner : Int
  flipped : Int
  bpp : Int
  channels : Int
  has_alpha : Int
  memory_used : Int
  memory_limit : Int
  target_width : Int
  target_height : Int
  keep_aspect : Int
  rotate : Int
  resize_type : resize_type
  filter : Int
  codec : Codec
  deriving DecidableEq

/-- Memory events performed by image.c, in the order they happen. -/
inductive Event where
  | Newz_Buffer (a : Nat)
  | buffer_init (a : Nat) (n : Nat)
  | buffer_free (a : Nat)
  | Safefree_Buffer (a : Nat)
  | New (a : Nat) (n : Int)
  | Zero (p : Option Nat) (n : Int)
  | Safefree (a : Nat)
  | downsize (t : resize_type)
  deriving DecidableEq, Repr

/-- The program state: the image struct, the content of the header Buffer that
im->buf points to, the next fresh heap address and the event log. -/
structure State where
  im : image
  hdr : Buffer
  next : Nat
  log : List Event

/-- The croak messages of image.c, one constructor for the errors raised
inside a codec backend, and New_failed for a call New(0, p, n, type) with a
negative count n: the allocator of Perl then croaks (panic: memory wrap) instead
of returning. -/
inductive Error where
  | not_scalar_ref
  | header_read
  | memory_limit (wanted : Int)
  | unknown_resize_type (n : Int)
  | backend (code : Nat)
  | New_failed
  deriving DecidableEq, Repr

/-- Outcome of a function of image.c: normal return, or croak (non-local exit)
with the state reached when croak was called. -/
inductive Result where
  | ok (s : State)
  | croak (e : Error) (s : State)

/-- The state carried by a Result. -/
def Result.state : Result → State
  | Result.ok s => s
  | Result.croak _ s => s

/-- The input of image_init: the hash has a file key (name and handle content),
or a data key holding a scalar reference, or a data key holding something else. -/
inductive Source where
  | file (name : List Nat) (fh : List Nat)
  | data (sv : List Nat)
  | data_not_ref (sv : List Nat)

/-- What a header reader hands back to the core. -/
structure HeaderInfo where
  width : Int
  height : Int
  channels : Int
  has_alpha : Int
  bpp : Int
  flipped : Int
  deriving DecidableEq, Repr

/-- Modelled from the spec: the parts of the repository that image.c includes
but that are not among the sources (image.h, buffer.c, jpeg.c, png.c, gif.c,
bmp.c).  pix_size is sizeof(pix).  check_buf is _check_buf(fh, buf, min, max):
the bytes it leaves in the buffer, or none when it fails.  read_header is the
per-format header reader: per the codec interface it yields the header fields
and the codec state, or fails.  load is the per-format pixel loader, left
arbitrary on the whole state.  finish is the per-format release of the codec
state, which per the codec interface touches nothing but that state. -/
structure Backend where
  pix_size : Nat
  check_buf : List Nat → Nat → Nat → Option (List Nat)
  read_header : image_type → State → Option (HeaderInfo × Codec)
  load : image_type → State → Result
  finish : image_type → Codec → Codec

/-- Safefree(p): releases the block p points to; Safefree(NULL) does nothing. -/
def Safefree (p : Option Nat) (log : List Event) : List Event :=
  match p with
  | none => log
  | some a => log ++ [Event.Safefree a]

/-- The per-format finish call: image_jpeg_finish, image_png_finish or
image_gif_finish on the codec state. -/
def backend_finish (B : Backend) (t : image_type) (s : State) : State :=
  { s with im := { s.im with codec := B.finish t s.im.codec } }

/-! ## image_init -/

/-- The second switch of image_init (lines 130-143): run the header reader of
the sniffed type; no reader for UNKNOWN. -/
def image_init_read_header (B : Backend) (s : State) : Result :=
  match s.im.type with
  | image_type.UNKNOWN => Result.ok s
  | t =>
    match B.read_header t s with
    | none => Result.croak (Error.backend 0) s
    | some (h, c) =>
      Result.ok { s with im := { s.im with
        width := h.width, height := h.height, channels := h.channels,
        has_alpha := h.has_alpha, bpp := h.bpp, flipped := h.flipped, codec := c } }

/-- The field resets of image_init (lines 54-83) together with the allocation of
the header Buffer at address a. -/
def image_init_fields (im : image) (a : Nat) : image :=
  { im with
    pixbuf := none, outbuf := none, type := image_type.UNKNOWN, sv_offset := 0,
    width := 0, height := 0, width_padding := 0, width_inner := 0,
    height_padding := 0, height_inner := 0, flipped := 0, bpp := 0, channels := 0,
    has_alpha := 0, memory_limit := 0, target_width := 0, target_height := 0,
    keep_aspect := 0, rotate := 0, resize_type := resize_type.IMAGE_SCALE_TYPE_GD,
    filter := 0, codec := ⟨none, none, none, none⟩,
    buf := some a, memory_used := 1024 }

/-- The function image_init(self, im).  The incoming state supplies the heap
and the (unspecified) previous content of the struct. -/
def image_init (B : Backend) (src : Source) (s : State) : Result :=
  match src with
  | Source.data_not_ref sv =>
    Result.croak Error.not_scalar_ref { s with im := { s.im with fh := none, sv_data := sv } }
  | Source.file _ fh =>
    let s1 : State :=
      { im := image_init_fields { s.im with fh := some fh } s.next
        hdr := ⟨[], s.hdr.uninit⟩
        next := s.next + 1
        log := s.log ++ [Event.Newz_Buffer s.next, Event.buffer_init s.next 1024] }
    match B.check_buf fh 8 1024 with
    | none =>
      Result.croak Error.header_read
        { s1 with
          im := { s1.im with buf := none }
          log := s1.log ++ [Event.buffer_free s.next, Event.Safefree_Buffer s.next] }
    | some bytes =>
      let s2 : State := { s1 with hdr := { s1.hdr with data := bytes } }
      image_init_read_header B
        { s2 with im := { s2.im with type := sniff (buffer_ptr s2.hdr) } }
  | Source.data sv =>
    let s1 : State :=
      { im := image_init_fields { s.im with fh := none, sv_data := sv } s.next
        hdr := ⟨[], s.hdr.uninit⟩
        next := s.next + 1
        log := s.log ++ [Event.Newz_Buffer s.next, Event.buffer_init s.next 1024] }
    let sv_offset : Nat := min sv.length 1024
    let s2 : State :=
      { s1 with
        im := { s1.im with sv_offset := (sv_offset : Int) }
        hdr := { s1.hdr with data := s1.hdr.data ++ sv.take sv_offset } }
    image_init_read_header B
      { s2 with im := { s2.im with type := sniff (buffer_ptr s2.hdr) } }

/-! ## image_alloc -/

/-- The function image_alloc(im, width, height); pix_size is sizeof(pix).  The
call New(0, im->pixbuf, size, pix) does not return for a negative size. -/
def image_alloc (pix_size : Nat) (s : State) (width height : Int) : Result :=
  let size := pix_bytes pix_size width height
  if s.im.memory_limit ≠ 0 ∧ s.im.memory_limit < int_add s.im.memory_used size then
    Result.croak (Error.memory_limit (int_add s.im.memory_used size)) s
  else if size < 0 then
    Result.croak Error.New_failed s
  else
    Result.ok
      { s with
        im := { s.im with pixbuf := some s.next, memory_used := int_add s.im.memory_used size }
        next := s.next + 1
        log := s.log ++ [Event.New s.next size] }

/-! ## image_resize -/

/-- The first switch of image_resize (lines 170-187): load the source image
through the backend, and release the codec state for JPEG, PNG and GIF. -/
def image_resize_load (B : Backend) (s : State) : Result :=
  match s.im.type with
  | image_type.UNKNOWN => Result.ok s
  | image_type.BMP => B.load image_type.BMP s
  | t =>
    match B.load t s with
    | Result.ok s1 => Result.ok (backend_finish B t s1)
    | Result.croak e s1 => Result.croak e s1

/-- The local  float source_ar = 1.0 * im->width / im->height  (line 209): the
product and the quotient are taken in double, the result is converted to
float. -/
def source_ar (im : image) : fval :=
  binary32.cvt (binary64.div (binary64.mul (fval.num 1) (binary64.of_int im.width))
    (binary64.of_int im.height))

/-- The local  float dest_ar = 1.0 * im->target_width / im->target_height
(line 210). -/
def dest_ar (im : image) : fval :=
  binary32.cvt (binary64.div (binary64.mul (fval.num 1) (binary64.of_int im.target_width))
    (binary64.of_int im.target_height))

/-- The assignments of the padding block of image_resize (lines 212-219): the
int operands are converted to float, every operation is a float operation, and
the results are cast to int. -/
def image_resize_aspect (im : image) : image :=
  if (source_ar im).ge (dest_ar im) = true then
    { im with
      height_padding :=
        (binary32.div
          (binary32.sub (binary32.of_int im.target_height)
            (binary32.div (binary32.of_int im.target_width) (source_ar im)))
          (binary32.of_int 2)).cast_int
      height_inner := (binary32.div (binary32.of_int im.target_width) (source_ar im)).cast_int }
  else
    { im with
      width_padding :=
        (binary32.div
          (binary32.sub (binary32.of_int im.target_width)
            (binary32.mul (binary32.of_int im.target_height) (source_ar im)))
          (binary32.of_int 2)).cast_int
      width_inner := (binary32.mul (binary32.of_int im.target_height) (source_ar im)).cast_int }

/-- The padding block of image_resize (lines 207-227): under keep_aspect the
padding assignments, then Zero(im->outbuf, size, pix). -/
def image_resize_padding (s : State) (size : Int) : State :=
  if s.im.keep_aspect ≠ 0 then
    { s with im := image_resize_aspect s.im, log := s.log ++ [Event.Zero s.im.outbuf size] }
  else s

/-- The resize dispatch of image_resize (lines 229-245): the state after the
selected strategy ran, or the croak for an unknown resize type.  A strategy
writes pixels only, which the state does not hold: it shows as an event. -/
def image_resize_dispatch (s : State) : Result :=
  match s.im.resize_type with
  | resize_type.other n => Result.croak (Error.unknown_resize_type n) s
  | t => Result.ok { s with log := s.log ++ [Event.downsize t] }

/-- The part of image_resize after the load (lines 189-249).  The call
New(0, im->outbuf, size, pix) does not return for a negative size. -/
def image_resize_loaded (B : Backend) (s : State) : Result :=
  if s.im.width = s.im.target_width ∧ s.im.height = s.im.target_height then
    Result.ok { s with im := { s.im with outbuf := s.im.pixbuf } }
  else
    let size := pix_bytes B.pix_size s.im.target_width s.im.target_height
    if s.im.memory_limit ≠ 0 ∧ s.im.memory_limit < int_add s.im.memory_used size then
      Result.croak (Error.memory_limit (int_add s.im.memory_used size)) s
    else if size < 0 then
      Result.croak Error.New_failed s
    else
      let s1 : State :=
        { s with
          im := { s.im with outbuf := some s.next, memory_used := int_add s.im.memory_used size }
          next := s.next + 1
          log := s.log ++ [Event.New s.next size] }
      let s2 : State := image_resize_padding s1 size
      match image_resize_dispatch s2 with
      | Result.croak e s3 => Result.croak e s3
      | Result.ok s3 =>
        Result.ok { s3 with im := { s3.im with pixbuf := none }, log := Safefree s3.im.pixbuf s3.log }

/-- The function image_resize(im). -/
def image_resize (B : Backend) (s : State) : Result :=
  match image_resize_load B s with
  | Result.croak e s1 => Result.croak e s1
  | Result.ok s1 => image_resize_loaded B s1

/-! ## image_finish -/

/-- The first switch of image_finish (lines 258-271). -/
def image_finish_backend (B : Backend) (s : State) : State :=
  match s.im.type with
  | image_type.JPEG => backend_finish B image_type.JPEG s
  | image_type.PNG => backend_finish B image_type.PNG s
  | image_type.GIF => backend_finish B image_type.GIF s
  | image_type.BMP => s
  | image_type.UNKNOWN => s

/-- The events of the three release statements of image_finish (lines 273-282)
for given values of im->buf, im->pixbuf and im->outbuf. -/
def image_finish_events (buf pixbuf outbuf : Option Nat) : List Event :=
  (match buf with
    | some a => [Event.buffer_free a, Event.Safefree_Buffer a]
    | none => [])
  ++ (if pixbuf ≠ none ∧ pixbuf ≠ outbuf then Safefree pixbuf [] else [])
  ++ (if outbuf ≠ none then Safefree outbuf [] else [])

/-- The function image_finish(im). -/
def image_finish (B : Backend) (s : State) : State :=
  let s1 := image_finish_backend B s
  { s1 with
    im := { s1.im with memory_used := 0 }
    log := s1.log ++ image_finish_events s1.im.buf s1.im.pixbuf s1.im.outbuf }

/-! ## Auxiliary views of the source -/

/-- The state of image_resize right after the target allocation (lines 204-205):
New(0, im->outbuf, size, pix) and memory_used += size, with size the int value
of target_width * target_height * sizeof(pix). -/
def image_resize_reserved (B : Backend) (s : State) : State :=
  { s with
    im := { s.im with
      outbuf := some s.next
      memory_used := int_add s.im.memory_used
        (pix_bytes B.pix_size s.im.target_width s.im.target_height) }
    next := s.next + 1
    log := s.log ++
      [Event.New s.next (pix_bytes B.pix_size s.im.target_width s.im.target_height)] }

/-- The indices read by a chain  bptr[i1] == c1 && bptr[i2] == c2 && ...  under
the left-to-right, short-circuit evaluation of C: each test is given by the
index it reads and the list of values it accepts. -/
def chain_reads (bptr : Nat → Nat) : List (Nat × List Nat) → List Nat
  | [] => []
  | (i, cs) :: rest => i :: (if bptr i ∈ cs then chain_reads bptr rest else [])

/-- The indices of bptr that the type classification of image_init reads (lines
102-125): bptr[0] for the switch, then the chain of the selected case. -/
def sniff_reads (bptr : Nat → Nat) : List Nat :=
  0 :: (if bptr 0 = 0xff then
      chain_reads bptr [(1, [0xd8]), (2, [0xff])]
    else if bptr 0 = 0x89 then
      chain_reads bptr [(1, ['P'.toNat]), (2, ['N'.toNat]), (3, ['G'.toNat]), (4, [0x0d]),
        (5, [0x0a]), (6, [0x1a]), (7, [0x0a])]
    else if bptr 0 = 'G'.toNat then
      chain_reads bptr [(1, ['I'.toNat]), (2, ['F'.toNat]), (3, ['8'.toNat]),
        (4, ['7'.toNat, '9'.toNat]), (5, ['a'.toNat])]
    else if bptr 0 = 'B'.toNat then
      chain_reads bptr [(1, ['M'.toNat])]
    else [])

/-! ## Sample inputs

Concrete values at which the theorems below are instantiated. -/

/-- A sample backend: 4-byte pixels, a header fill that needs min bytes and
keeps at most max, a header reader reporting a 100 x 50 image, a loader that
reserves the source buffer through image_alloc, a finish that clears the codec
state. -/
def sample_backend : Backend :=
  { pix_size := 4
    check_buf := fun fh min max => if min ≤ fh.length then some (fh.take max) else none
    read_header := fun _ _ => some (⟨100, 50, 3, 0, 24, 0⟩, ⟨none, none, none, none⟩)
    load := fun _ s => image_alloc 4 s s.im.width s.im.height
    finish := fun _ _ => ⟨none, none, none, none⟩ }

/-- An image struct with every field zero or NULL. -/
def sample_image : image :=
  { buf := none, fh := none, sv_data := [], sv_offset := 0, pixbuf := none, outbuf := none,
    type := image_type.UNKNOWN, width := 0, height := 0, width_padding := 0, width_inner := 0,
    height_padding := 0, height_inner := 0, flipped := 0, bpp := 0, channels := 0,
    has_alpha := 0, memory_used := 0, memory_limit := 0, target_width := 0,
    target_height := 0, keep_aspect := 0, rotate := 0,
    resize_type := resize_type.IMAGE_SCALE_TYPE_GD, filter := 0,
    codec := ⟨none, none, none, none⟩ }

/-- A state around a given image struct: empty header buffer, empty heap. -/
def sample_state (im : image) : State :=
  { im := im, hdr := ⟨[], fun _ => 0⟩, next := 0, log := [] }

/-- A BMP context after image_init, with the given dimensions and options. -/
def sample_bmp (w h tw th keep limit : Int) : State :=
  { im := { sample_image with
      buf := some 0, type := image_type.BMP, width := w, height := h, target_width := tw,
      target_height := th, keep_aspect := keep, memory_limit := limit, memory_used := 1024 }
    hdr := ⟨['B'.toNat, 'M'.toNat, 0, 0, 0, 0, 0, 0], fun _ => 0⟩
    next := 1
    log := [Event.Newz_Buffer 0, Event.buffer_init 0 1024] }

/-- A state with its resize_type replaced. -/
def sample_with_resize_type (s : State) (t : resize_type) : State :=
  { s with im := { s.im with resize_type := t } }

/-- A state with its target dimensions and keep_aspect replaced: what the caller
sets between image_init and image_resize. -/
def sample_with_target (s : State) (tw th keep : Int) : State :=
  { s with im := { s.im with target_width := tw, target_height := th, keep_aspect := keep } }

/-! ## Arithmetic lemmas -/

theorem int_of_float_of_nonneg (q : ℚ) (hq : 0 ≤ q) : int_of_float q = ⌊q⌋ := by
  unfold int_of_float
  rw [Rat.floor_def]
  exact Int.tdiv_eq_ediv (Rat.num_nonneg.mpr hq) (Int.natCast_nonneg _)

/-- An integer in the int range is its own reduction. -/
theorem to_int_of_range (x : Int) (h1 : -2147483648 ≤ x) (h2 : x < 2147483648) :
    to_int x = x := by
  unfold to_int
  omega

/-- The dispatch either runs a strategy (one downsize event appended) or croaks
with the unknown-resize-type error in an unchanged state. -/
theorem image_resize_dispatch_cases (s : State) :
    (image_resize_dispatch s
        = Result.ok { s with log := s.log ++ [Event.downsize s.im.resize_type] } ∧
      ∀ n, s.im.resize_type ≠ resize_type.other n) ∨
    (∃ n, s.im.resize_type = resize_type.other n ∧
      image_resize_dispatch s = Result.croak (Error.unknown_resize_type n) s) := by
  unfold image_resize_dispatch
  cases h : s.im.resize_type with
  | other n => exact Or.inr ⟨n, rfl, rfl⟩
  | _ => exact Or.inl ⟨rfl, fun n hn => by cases hn⟩

/-- Under keep_aspect the padding block rewrites the struct by the padding
assignments. -/
theorem image_resize_padding_im (s : State) (size : Int) (hk : s.im.keep_aspect ≠ 0) :
    (image_resize_padding s size).im = image_resize_aspect s.im := by
  unfold image_resize_padding
  rw [if_pos hk]

/-- The backend switch of image_finish touches the codec state only. -/
theorem image_finish_backend_frame (B : Backend) (s : State) :
    (image_finish_backend B s).im.buf = s.im.buf ∧
    (image_finish_backend B s).im.pixbuf = s.im.pixbuf ∧
    (image_finish_backend B s).im.outbuf = s.im.outbuf ∧
    (image_finish_backend B s).im.type = s.im.type ∧
    (image_finish_backend B s).log = s.log := by
  unfold image_finish_backend
  split <;> exact ⟨rfl, rfl, rfl, rfl, rfl⟩

/-- The log of image_finish: the incoming log followed by the release events
for the incoming values of buf, pixbuf and outbuf. -/
theorem image_finish_log (B : Backend) (s : State) :
    (image_finish B s).log
      = s.log ++ image_finish_events s.im.buf s.im.pixbuf s.im.outbuf := by
  obtain ⟨h1, h2, h3, -, h5⟩ := image_finish_backend_frame B s
  show (image_finish_backend B s).log ++ image_finish_events (image_finish_backend B s).im.buf
    (image_finish_backend B s).im.pixbuf (image_finish_backend B s).im.outbuf = _
  rw [h1, h2, h3, h5]

/-- The header reader switch of image_init leaves the memory counters alone. -/
theorem image_init_read_header_memory (B : Backend) (s s1 : State)
    (h : image_init_read_header B s = Result.ok s1) :
    s1.im.memory_used = s.im.memory_used ∧ s1.im.memory_limit = s.im.memory_limit := by
  unfold image_init_read_header at h
  split at h
  · cases h
    exact ⟨rfl, rfl⟩
  · split at h
    · cases h
    · cases h
      exact ⟨rfl, rfl⟩

/-- The padding block leaves the memory counters alone. -/
theorem image_resize_padding_memory (s : State) (size : Int) :
    (image_resize_padding s size).im.memory_used = s.im.memory_used ∧
    (image_resize_padding s size).im.memory_limit = s.im.memory_limit := by
  unfold image_resize_padding
  split
  · unfold image_resize_aspect
    dsimp only
    split <;> exact ⟨rfl, rfl⟩
  · exact ⟨rfl, rfl⟩

/-! ## The structure of image_resize after the load -/

/-- The padding block touches the four padding fields and the log only. -/
theorem image_resize_padding_frame (s : State) (size : Int) :
    (image_resize_padding s size).im.buf = s.im.buf ∧
    (image_resize_padding s size).im.pixbuf = s.im.pixbuf ∧
    (image_resize_padding s size).im.outbuf = s.im.outbuf ∧
    (image_resize_padding s size).im.resize_type = s.im.resize_type ∧
    (image_resize_padding s size).im.keep_aspect = s.im.keep_aspect ∧
    (image_resize_padding s size).next = s.next ∧
    (image_resize_padding s size).log
      = s.log ++ (if s.im.keep_aspect ≠ 0 then [Event.Zero s.im.outbuf size] else []) := by
  unfold image_resize_padding
  split
  · unfold image_resize_aspect
    dsimp only
    split <;> exact ⟨rfl, rfl, rfl, rfl, rfl, rfl, rfl⟩
  · exact ⟨rfl, rfl, rfl, rfl, rfl, rfl, (List.append_nil _).symm⟩

/-- The five exits of the part of image_resize after the load: the equal-size
return, the memory-limit croak, the New that does not return, the
unknown-resize-type croak, and the completed resize. -/
theorem image_resize_loaded_cases (B : Backend) (s : State) :
    ((s.im.width = s.im.target_width ∧ s.im.height = s.im.target_height) ∧
      image_resize_loaded B s = Result.ok { s with im := { s.im with outbuf := s.im.pixbuf } }) ∨
    (¬ (s.im.width = s.im.target_width ∧ s.im.height = s.im.target_height) ∧
      (s.im.memory_limit ≠ 0 ∧ s.im.memory_limit < int_add s.im.memory_used
        (pix_bytes B.pix_size s.im.target_width s.im.target_height)) ∧
      image_resize_loaded B s = Result.croak (Error.memory_limit (int_add s.im.memory_used
        (pix_bytes B.pix_size s.im.target_width s.im.target_height))) s) ∨
    (¬ (s.im.width = s.im.target_width ∧ s.im.height = s.im.target_height) ∧
      ¬ (s.im.memory_limit ≠ 0 ∧ s.im.memory_limit < int_add s.im.memory_used
        (pix_bytes B.pix_size s.im.target_width s.im.target_height)) ∧
      pix_bytes B.pix_size s.im.target_width s.im.target_height < 0 ∧
      image_resize_loaded B s = Result.croak Error.New_failed s) ∨
    (¬ (s.im.width = s.im.target_width ∧ s.im.height = s.im.target_height) ∧
      ¬ (s.im.memory_limit ≠ 0 ∧ s.im.memory_limit < int_add s.im.memory_used
        (pix_bytes B.pix_size s.im.target_width s.im.target_height)) ∧
      0 ≤ pix_bytes B.pix_size s.im.target_width s.im.target_height ∧
      ∃ n, s.im.resize_type = resize_type.other n ∧
        image_resize_loaded B s = Result.croak (Error.unknown_resize_type n)
          (image_resize_padding (image_resize_reserved B s)
            (pix_bytes B.pix_size s.im.target_width s.im.target_height))) ∨
    (¬ (s.im.width = s.im.target_width ∧ s.im.height = s.im.target_height) ∧
      ¬ (s.im.memory_limit ≠ 0 ∧ s.im.memory_limit < int_add s.im.memory_used
        (pix_bytes B.pix_size s.im.target_width s.im.target_height)) ∧
      0 ≤ pix_bytes B.pix_size s.im.target_width s.im.target_height ∧
      (∀ n, s.im.resize_type ≠ resize_type.other n) ∧
      image_resize_loaded B s = Result.ok
        { image_resize_padding (image_resize_reserved B s)
            (pix_bytes B.pix_size s.im.target_width s.im.target_height) with
          im := { (image_resize_padding (image_resize_reserved B s)
              (pix_bytes B.pix_size s.im.target_width s.im.target_height)).im with
            pixbuf := none }
          log := Safefree s.im.pixbuf
            ((image_resize_padding (image_resize_reserved B s)
              (pix_bytes B.pix_size s.im.target_width s.im.target_height)).log
              ++ [Event.downsize s.im.resize_type]) }) := by
  obtain ⟨-, hpix, -, hrt, -, -, -⟩ := image_resize_padding_frame (image_resize_reserved B s)
    (pix_bytes B.pix_size s.im.target_width s.im.target_height)
  have hrt2 : (image_resize_reserved B s).im.resize_type = s.im.resize_type := rfl
  have hpix2 : (image_resize_reserved B s).im.pixbuf = s.im.pixbuf := rfl
  by_cases hsame : s.im.width = s.im.target_width ∧ s.im.height = s.im.target_height
  · refine Or.inl ⟨hsame, ?_⟩
    dsimp only [image_resize_loaded]
    rw [if_pos hsame]
  · by_cases hc : s.im.memory_limit ≠ 0 ∧ s.im.memory_limit < int_add s.im.memory_used
        (pix_bytes B.pix_size s.im.target_width s.im.target_height)
    · refine Or.inr (Or.inl ⟨hsame, hc, ?_⟩)
      dsimp only [image_resize_loaded]
      rw [if_neg hsame, if_pos hc]
    · by_cases hneg : pix_bytes B.pix_size s.im.target_width s.im.target_height < 0
      · refine Or.inr (Or.inr (Or.inl ⟨hsame, hc, hneg, ?_⟩))
        dsimp only [image_resize_loaded]
        rw [if_neg hsame, if_neg hc, if_pos hneg]
      · have e : image_resize_loaded B s =
            (match image_resize_dispatch (image_resize_padding (image_resize_reserved B s)
                (pix_bytes B.pix_size s.im.target_width s.im.target_height)) with
              | Result.croak e s3 => Result.croak e s3
              | Result.ok s3 =>
                Result.ok { s3 with
                  im := { s3.im with pixbuf := none }, log := Safefree s3.im.pixbuf s3.log }) := by
          dsimp only [image_resize_loaded]
          rw [if_neg hsame, if_neg hc, if_neg hneg]
          rfl
        rcases image_resize_dispatch_cases (image_resize_padding (image_resize_reserved B s)
            (pix_bytes B.pix_size s.im.target_width s.im.target_height)) with
          ⟨hd, hn⟩ | ⟨n, hn, hd⟩
        · refine Or.inr (Or.inr (Or.inr (Or.inr ⟨hsame, hc, not_lt.mp hneg, ?_, ?_⟩)))
          · intro n
            rw [← hrt2, ← hrt]
            exact hn n
          · rw [e, hd]
            dsimp only
            rw [hrt, hrt2, hpix, hpix2]
        · refine Or.inr (Or.inr (Or.inr (Or.inl ⟨hsame, hc, not_lt.mp hneg, n, ?_, ?_⟩)))
          · rw [← hrt2, ← hrt]
            exact hn
          · rw [e, hd]

/-! ## Floating-point lemmas -/

/-- The cast (int) of a non-negative value is its floor. -/
theorem int_of_float_floor (q : ℚ) (n : Int) (hn : 0 ≤ n) (h0 : (n : ℚ) ≤ q)
    (h1 : q < (n : ℚ) + 1) : int_of_float q = n := by
  have hq : 0 ≤ q := le_trans (by exact_mod_cast hn) h0
  rw [int_of_float_of_nonneg q hq]
  exact Int.floor_eq_iff.mpr ⟨h0, h1⟩

/-- The cast (int) of the negation of a value is the negation of its cast. -/
theorem int_of_float_neg (q : ℚ) : int_of_float (-q) = -int_of_float q := by
  unfold int_of_float
  rw [Rat.neg_num, Rat.neg_den, Int.neg_tdiv]

/-- The cast (int) of a value strictly between -1 and 1 is 0. -/
theorem int_of_float_small (q : ℚ) (h0 : -1 < q) (h1 : q < 1) : int_of_float q = 0 := by
  by_cases hq : 0 ≤ q
  · exact int_of_float_floor q 0 (le_refl _) (by simpa using hq) (by simpa using h1)
  · have h2 : int_of_float (-q) = 0 :=
      int_of_float_floor (-q) 0 (le_refl _) (by simp; linarith) (by simp; linarith)
    have h3 := int_of_float_neg (-q)
    rw [neg_neg, h2] at h3
    simpa using h3

/-- The cast (int) of a value above -1 is non-negative, and at most the value
when the value is non-negative. -/
theorem int_of_float_bounds (q : ℚ) (h0 : -1 < q) :
    0 ≤ int_of_float q ∧ ((int_of_float q : Int) : ℚ) ≤ max q 0 ∧
      max q 0 < ((int_of_float q : Int) : ℚ) + 1 := by
  by_cases hq : 0 ≤ q
  · rw [int_of_float_of_nonneg q hq, max_eq_left hq]
    exact ⟨Int.floor_nonneg.mpr hq, Int.floor_le q, Int.lt_floor_add_one q⟩
  · have hq' : q < 0 := not_le.mp hq
    rw [int_of_float_small q h0 (by linarith), max_eq_right hq'.le]
    norm_num

theorem round_even_sub_le (y : ℚ) : |(round_even y : ℚ) - y| ≤ 1 / 2 := by
  have h1 := Int.floor_le y
  have h2 := Int.lt_floor_add_one y
  unfold round_even
  split_ifs with a b c
  · rw [abs_le]; constructor <;> linarith
  · push_cast; rw [abs_le]; constructor <;> linarith
  · rw [abs_le]; constructor <;> linarith
  · push_cast; rw [abs_le]; constructor <;> linarith

/-- A value closer than 1/2 to an integer rounds to that integer. -/
theorem round_even_eq (y : ℚ) (n : Int) (h : |y - (n : ℚ)| < 1 / 2) : round_even y = n := by
  rw [abs_lt] at h
  have hb := round_even_sub_le y
  rw [abs_le] at hb
  have h3 : |((round_even y - n : Int) : ℚ)| < 1 := by
    push_cast
    rw [abs_lt]
    constructor <;> linarith
  have h4 : |round_even y - n| < 1 := by exact_mod_cast h3
  have := Int.abs_lt_one_iff.mp h4
  omega

theorem round_even_intCast (n : Int) : round_even (n : ℚ) = n :=
  round_even_eq _ n (by simp)

theorem ulp_exp_eq (f : fmt) (x : ℚ) (L : Int) (h1 : (2 : ℚ) ^ L ≤ |x|)
    (h2 : |x| < (2 : ℚ) ^ (L + 1)) (hmin : f.emin ≤ L - ((f.prec : Int) - 1)) :
    f.ulp_exp x = L - ((f.prec : Int) - 1) := by
  have hpos : 0 < |x| := lt_of_lt_of_le (by positivity) h1
  have hL : Int.log 2 |x| = L := by
    have a : L ≤ Int.log 2 |x| :=
      (Int.zpow_le_iff_le_log (by norm_num) hpos).mp (by exact_mod_cast h1)
    have b : Int.log 2 |x| < L + 1 :=
      (Int.lt_zpow_iff_log_lt (by norm_num) hpos).mp (by exact_mod_cast h2)
    omega
  unfold fmt.ulp_exp
  rw [hL]
  exact max_eq_left hmin

/-- The rounding of a value with binary exponent L whose scaled significand is
closer than 1/2 to the integer n. -/
theorem round_eval (f : fmt) (x : ℚ) (L n : Int) (h1 : (2 : ℚ) ^ L ≤ |x|)
    (h2 : |x| < (2 : ℚ) ^ (L + 1)) (hmin : f.emin ≤ L - ((f.prec : Int) - 1))
    (hn : |x / (2 : ℚ) ^ (L - ((f.prec : Int) - 1)) - (n : ℚ)| < 1 / 2) :
    f.round x = (n : ℚ) * (2 : ℚ) ^ (L - ((f.prec : Int) - 1)) := by
  unfold fmt.round
  rw [ulp_exp_eq f x L h1 h2 hmin, round_even_eq _ n hn]

theorem two_zpow_pos (e : Int) : (0 : ℚ) < (2 : ℚ) ^ e := by positivity

/-- The rounding error is at most half the unit in the last place. -/
theorem round_err_ulp (f : fmt) (x : ℚ) :
    |f.round x - x| ≤ (2 : ℚ) ^ f.ulp_exp x / 2 := by
  have hu := two_zpow_pos (f.ulp_exp x)
  have h := round_even_sub_le (x / (2 : ℚ) ^ f.ulp_exp x)
  have e : f.round x - x
      = ((round_even (x / (2 : ℚ) ^ f.ulp_exp x) : ℚ) - x / (2 : ℚ) ^ f.ulp_exp x)
        * (2 : ℚ) ^ f.ulp_exp x := by
    unfold fmt.round
    field_simp
  rw [e, abs_mul, abs_of_pos hu]
  calc _ ≤ 1 / 2 * (2 : ℚ) ^ f.ulp_exp x := mul_le_mul_of_nonneg_right h hu.le
    _ = _ := by ring

theorem round_zero (f : fmt) : f.round 0 = 0 := by
  unfold fmt.round
  rw [zero_div]
  have : round_even 0 = 0 := round_even_eq 0 0 (by norm_num)
  rw [this]
  simp

/-- For a value in the normal range the rounding error is at most 2^-prec of
the value. -/
theorem round_err (f : fmt) (x : ℚ)
    (hx : (2 : ℚ) ^ (f.emin + ((f.prec : Int) - 1)) ≤ |x|) :
    |f.round x - x| ≤ |x| / (2 : ℚ) ^ (f.prec : Int) := by
  have hpos : 0 < |x| := lt_of_lt_of_le (two_zpow_pos _) hx
  have hlog : f.emin + ((f.prec : Int) - 1) ≤ Int.log 2 |x| :=
    (Int.zpow_le_iff_le_log (by norm_num) hpos).mp (by exact_mod_cast hx)
  have hu : f.ulp_exp x = Int.log 2 |x| - ((f.prec : Int) - 1) := by
    unfold fmt.ulp_exp
    exact max_eq_left (by omega)
  have h1 : (2 : ℚ) ^ Int.log 2 |x| ≤ |x| := by
    exact_mod_cast Int.zpow_log_le_self (b := 2) (by norm_num) hpos
  have h := round_err_ulp f x
  rw [hu] at h
  have e : (2 : ℚ) ^ (Int.log 2 |x| - ((f.prec : Int) - 1)) / 2
      = (2 : ℚ) ^ Int.log 2 |x| / (2 : ℚ) ^ (f.prec : Int) := by
    rw [zpow_sub₀ (by norm_num), zpow_sub₀ (by norm_num), zpow_one]
    field_simp
    ring
  rw [e] at h
  exact h.trans (div_le_div_of_nonneg_right h1 (two_zpow_pos _).le)

/-- In general the rounding error is at most 2^-prec of the value plus half the
smallest unit. -/
theorem round_err_slop (f : fmt) (x : ℚ) :
    |f.round x - x| ≤ |x| / (2 : ℚ) ^ (f.prec : Int) + (2 : ℚ) ^ f.emin / 2 := by
  by_cases hx : (2 : ℚ) ^ (f.emin + ((f.prec : Int) - 1)) ≤ |x|
  · have := round_err f x hx
    have := two_zpow_pos f.emin
    linarith
  · by_cases h0 : x = 0
    · rw [h0, round_zero]
      simp
      positivity
    · have hpos : 0 < |x| := abs_pos.mpr h0
      have hlog : Int.log 2 |x| < f.emin + ((f.prec : Int) - 1) :=
        (Int.lt_zpow_iff_log_lt (by norm_num) hpos).mp (by exact_mod_cast not_le.mp hx)
      have hu : f.ulp_exp x = f.emin := by
        unfold fmt.ulp_exp
        exact max_eq_right (by omega)
      have h := round_err_ulp f x
      rw [hu] at h
      have : 0 ≤ |x| / (2 : ℚ) ^ (f.prec : Int) := by positivity
      linarith

/-- Integers below 2^prec are not changed by rounding. -/
theorem round_int (f : fmt) (n : Int) (hn : |n| < 2 ^ f.prec) (hp : 1 ≤ f.prec)
    (hmin : f.emin ≤ -((f.prec : Int) - 1)) : f.round (n : ℚ) = (n : ℚ) := by
  by_cases h0 : n = 0
  · rw [h0]
    exact_mod_cast round_zero f
  · have hpos : (0 : ℚ) < |(n : ℚ)| := abs_pos.mpr (by exact_mod_cast h0)
    have hlt : |(n : ℚ)| < (2 : ℚ) ^ ((f.prec : Int)) := by
      have : ((|n| : Int) : ℚ) < ((2 ^ f.prec : Int) : ℚ) := by exact_mod_cast hn
      rw [Int.cast_abs] at this
      rw [zpow_natCast]
      exact_mod_cast this
    have hlog : Int.log 2 |(n : ℚ)| < (f.prec : Int) :=
      (Int.lt_zpow_iff_log_lt (by norm_num) hpos).mp (by exact_mod_cast hlt)
    have hle : f.ulp_exp (n : ℚ) ≤ 0 := by
      unfold fmt.ulp_exp
      apply max_le <;> omega
    obtain ⟨k, hk⟩ : ∃ k : Nat, f.ulp_exp (n : ℚ) = -(k : Int) :=
      ⟨(-f.ulp_exp (n : ℚ)).toNat, by omega⟩
    unfold fmt.round
    rw [hk]
    have e : (n : ℚ) / (2 : ℚ) ^ (-(k : Int)) = ((n * 2 ^ k : Int) : ℚ) := by
      rw [zpow_neg, zpow_natCast]
      push_cast
      field_simp
    rw [e, round_even_intCast, zpow_neg, zpow_natCast]
    push_cast
    field_simp

/-- A value in the normal range and below half the overflow threshold has a
finite nonzero floating value, within 2^-prec of it. -/
theorem of_rat_num (f : fmt) (x : ℚ) (hp : 1 ≤ f.prec)
    (h1 : (2 : ℚ) ^ (f.emin + ((f.prec : Int) - 1)) ≤ |x|)
    (h2 : |x| < (2 : ℚ) ^ (f.emax - 1)) :
    f.of_rat x = fval.num (f.round x) ∧
      |f.round x - x| ≤ |x| / (2 : ℚ) ^ (f.prec : Int) := by
  have herr := round_err f x h1
  have hpos : 0 < |x| := lt_of_lt_of_le (two_zpow_pos _) h1
  have h2p : (2 : ℚ) ≤ (2 : ℚ) ^ (f.prec : Int) := by
    rw [zpow_natCast]
    calc (2 : ℚ) = 2 ^ 1 := by norm_num
      _ ≤ 2 ^ f.prec := pow_le_pow_right₀ (by norm_num) hp
  have hhalf : |x| / (2 : ℚ) ^ (f.prec : Int) ≤ |x| / 2 :=
    div_le_div_of_nonneg_left hpos.le (by norm_num) h2p
  have hdiff : |f.round x - x| ≤ |x| / 2 := herr.trans hhalf
  have hup : |f.round x| ≤ |x| + |x| / 2 := by
    have := abs_add (f.round x - x) x
    rw [sub_add_cancel] at this
    linarith
  have hlo : |x| / 2 ≤ |f.round x| := by
    have := abs_sub_abs_le_abs_sub x (f.round x)
    rw [abs_sub_comm] at this
    linarith
  have hmax : (2 : ℚ) ^ f.emax = (2 : ℚ) ^ (f.emax - 1) * 2 := by
    rw [← zpow_add_one₀ (by norm_num : (2 : ℚ) ≠ 0)]
    congr 1
    ring
  have hne : f.round x ≠ 0 := by
    intro h0
    rw [h0, abs_zero] at hlo
    linarith
  refine ⟨?_, herr⟩
  unfold fmt.of_rat
  rw [if_neg (not_le.mpr (by rw [hmax]; linarith)), if_neg hne]

/-- Below half the overflow threshold the floating value of x is finite: the
rounded value, or a zero when that is 0. -/
theorem of_rat_finite (f : fmt) (x : ℚ) (hp : 1 ≤ f.prec) (hmin : f.emin < f.emax - 1)
    (h2 : |x| < (2 : ℚ) ^ (f.emax - 1)) :
    (f.of_rat x = fval.num (f.round x) ∧ f.round x ≠ 0) ∨
    (∃ b, f.of_rat x = fval.zero b ∧ f.round x = 0) := by
  have herr := round_err_slop f x
  have h2p : (2 : ℚ) ≤ (2 : ℚ) ^ (f.prec : Int) := by
    rw [zpow_natCast]
    calc (2 : ℚ) = 2 ^ 1 := by norm_num
      _ ≤ 2 ^ f.prec := pow_le_pow_right₀ (by norm_num) hp
  have hhalf : |x| / (2 : ℚ) ^ (f.prec : Int) ≤ |x| / 2 :=
    div_le_div_of_nonneg_left (abs_nonneg x) (by norm_num) h2p
  have hmn : (2 : ℚ) ^ f.emin ≤ (2 : ℚ) ^ (f.emax - 1) :=
    zpow_le_zpow_right₀ (by norm_num) hmin.le
  have hup : |f.round x| ≤ |x| + (|x| / 2 + (2 : ℚ) ^ f.emin / 2) := by
    have := abs_add (f.round x - x) x
    rw [sub_add_cancel] at this
    linarith
  have hmax : (2 : ℚ) ^ f.emax = (2 : ℚ) ^ (f.emax - 1) * 2 := by
    rw [← zpow_add_one₀ (by norm_num : (2 : ℚ) ≠ 0)]
    congr 1
    ring
  have hlt : ¬ (2 : ℚ) ^ f.emax ≤ |f.round x| := by
    rw [hmax]
    intro hc
    have := two_zpow_pos f.emin
    linarith
  unfold fmt.of_rat
  rw [if_neg hlt]
  by_cases h0 : f.round x = 0
  · rw [if_pos h0]
    exact Or.inr ⟨_, rfl, h0⟩
  · rw [if_neg h0]
    exact Or.inl ⟨rfl, h0⟩

/-- A float value between 2^-100 and 2^100 in magnitude is finite and nonzero,
within 2^-24 of the exact value. -/
theorem binary32_of_rat (x : ℚ) (h1 : 1 / 2 ^ 100 ≤ |x|) (h2 : |x| < 2 ^ 100) :
    binary32.of_rat x = fval.num (binary32.round x) ∧
      |binary32.round x - x| ≤ |x| / 2 ^ 24 := by
  obtain ⟨a, b⟩ := of_rat_num binary32 x (by decide)
    (le_trans (by norm_num [binary32]) h1) (lt_of_lt_of_le h2 (by norm_num [binary32]))
  have e : (2 : ℚ) ^ (binary32.prec : Int) = 2 ^ 24 := by
    rw [zpow_natCast]
    rfl
  rw [e] at b
  exact ⟨a, b⟩

/-- A double value between 2^-100 and 2^100 in magnitude is finite and nonzero,
within 2^-53 of the exact value. -/
theorem binary64_of_rat (x : ℚ) (h1 : 1 / 2 ^ 100 ≤ |x|) (h2 : |x| < 2 ^ 100) :
    binary64.of_rat x = fval.num (binary64.round x) ∧
      |binary64.round x - x| ≤ |x| / 2 ^ 53 := by
  obtain ⟨a, b⟩ := of_rat_num binary64 x (by decide)
    (le_trans (by norm_num [binary64]) h1) (lt_of_lt_of_le h2 (by norm_num [binary64]))
  have e : (2 : ℚ) ^ (binary64.prec : Int) = 2 ^ 53 := by
    rw [zpow_natCast]
    rfl
  rw [e] at b
  exact ⟨a, b⟩

/-- The float rounding error of any value. -/
theorem binary32_round_err (x : ℚ) :
    |binary32.round x - x| ≤ |x| / 2 ^ 24 + 1 / 2 ^ 100 := by
  have h := round_err_slop binary32 x
  have e : (2 : ℚ) ^ binary32.emin / 2 ≤ 1 / 2 ^ 100 := by norm_num [binary32]
  have e2 : (2 : ℚ) ^ (binary32.prec : Int) = 2 ^ 24 := by
    rw [zpow_natCast]
    rfl
  rw [e2] at h
  linarith

/-- A float value below 2^100 in magnitude is finite. -/
theorem binary32_of_rat_finite (x : ℚ) (h2 : |x| < 2 ^ 100) :
    (binary32.of_rat x = fval.num (binary32.round x) ∧ binary32.round x ≠ 0) ∨
    (∃ b, binary32.of_rat x = fval.zero b ∧ binary32.round x = 0) :=
  of_rat_finite binary32 x (by decide) (by decide)
    (lt_of_lt_of_le h2 (by norm_num [binary32]))

/-- The conversion of a positive int below 2^24 to float is exact. -/
theorem binary32_of_int (n : Int) (h0 : 0 < n) (h1 : n < 16777216) :
    binary32.of_int n = fval.num (n : ℚ) := by
  have hn : (1 : ℚ) ≤ (n : ℚ) := by exact_mod_cast h0
  have hn2 : (n : ℚ) < 16777216 := by exact_mod_cast h1
  have habs : |(n : ℚ)| = (n : ℚ) := abs_of_pos (by linarith)
  obtain ⟨h, -⟩ := binary32_of_rat (n : ℚ) (by rw [habs]; norm_num; linarith)
    (by rw [habs]; norm_num; linarith)
  have hr : binary32.round (n : ℚ) = (n : ℚ) :=
    round_int binary32 n (by rw [abs_of_pos h0]; simpa [binary32] using h1) (by decide)
      (by decide)
  unfold fmt.of_int
  rw [if_neg h0.ne.symm, h, hr]

/-- The conversion of a positive int to double is exact. -/
theorem binary64_of_int (n : Int) (h0 : 0 < n) (h1 : n < 2147483648) :
    binary64.of_int n = fval.num (n : ℚ) := by
  have hn : (1 : ℚ) ≤ (n : ℚ) := by exact_mod_cast h0
  have hn2 : (n : ℚ) < 2147483648 := by exact_mod_cast h1
  have habs : |(n : ℚ)| = (n : ℚ) := abs_of_pos (by linarith)
  obtain ⟨h, -⟩ := binary64_of_rat (n : ℚ) (by rw [habs]; norm_num; linarith)
    (by rw [habs]; norm_num; linarith)
  have hr : binary64.round (n : ℚ) = (n : ℚ) :=
    round_int binary64 n
      (by rw [abs_of_pos h0]; exact lt_trans h1 (by norm_num [binary64])) (by decide)
      (by decide)
  unfold fmt.of_int
  rw [if_neg h0.ne.symm, h, hr]

/-- The expression  1.0 * a / b  assigned to a float, for positive ints: the
double quotient a / b, converted to float. -/
theorem ratio_eq (a b : Int) (ha0 : 0 < a) (ha1 : a < 2147483648) (hb0 : 0 < b)
    (hb1 : b < 2147483648) :
    binary32.cvt (binary64.div (binary64.mul (fval.num 1) (binary64.of_int a))
        (binary64.of_int b))
      = binary32.cvt (binary64.of_rat ((a : ℚ) / (b : ℚ))) := by
  have e : binary64.mul (fval.num 1) (fval.num (a : ℚ)) = fval.num (a : ℚ) := by
    show binary64.of_rat (1 * (a : ℚ)) = _
    rw [one_mul]
    have := binary64_of_int a ha0 ha1
    unfold fmt.of_int at this
    rwa [if_neg ha0.ne.symm] at this
  rw [binary64_of_int a ha0 ha1, binary64_of_int b hb0 hb1, e]
  rfl

/-- The float value of  1.0 * a / b  for positive ints below 2^20: a finite
positive number within 2^-23 of the exact ratio. -/
theorem ratio_num (a b : Int) (ha0 : 0 < a) (ha1 : a < 1048576) (hb0 : 0 < b)
    (hb1 : b < 1048576) :
    ∃ S : ℚ,
      binary32.cvt (binary64.div (binary64.mul (fval.num 1) (binary64.of_int a))
        (binary64.of_int b)) = fval.num S ∧
      8388607 / 8388608 * ((a : ℚ) / (b : ℚ)) ≤ S ∧
      S ≤ 8388609 / 8388608 * ((a : ℚ) / (b : ℚ)) ∧
      1 / 2097152 ≤ S ∧ S ≤ 2097152 := by
  have ha : (1 : ℚ) ≤ (a : ℚ) := by exact_mod_cast ha0
  have ha2 : (a : ℚ) ≤ 1048575 := by exact_mod_cast Int.lt_add_one_iff.mp ha1
  have hb : (1 : ℚ) ≤ (b : ℚ) := by exact_mod_cast hb0
  have hb2 : (b : ℚ) ≤ 1048575 := by exact_mod_cast Int.lt_add_one_iff.mp hb1
  have hbpos : (0 : ℚ) < (b : ℚ) := by linarith
  have hr1 : 1 / 1048575 ≤ (a : ℚ) / (b : ℚ) := by
    rw [le_div_iff₀ hbpos]
    linarith
  have hr2 : (a : ℚ) / (b : ℚ) ≤ 1048575 := by
    rw [div_le_iff₀ hbpos]
    nlinarith
  have hrpos : (0 : ℚ) < (a : ℚ) / (b : ℚ) := by linarith
  obtain ⟨e64, err64⟩ := binary64_of_rat ((a : ℚ) / (b : ℚ))
    (by rw [abs_of_pos hrpos]; norm_num; linarith)
    (by rw [abs_of_pos hrpos]; norm_num; linarith)
  rw [abs_of_pos hrpos, abs_le] at err64
  have h64pos : 0 < binary64.round ((a : ℚ) / (b : ℚ)) := by
    norm_num at err64
    linarith [err64.1]
  obtain ⟨e32, err32⟩ := binary32_of_rat (binary64.round ((a : ℚ) / (b : ℚ)))
    (by rw [abs_of_pos h64pos]; norm_num at err64 ⊢; linarith [err64.1])
    (by rw [abs_of_pos h64pos]; norm_num at err64 ⊢; linarith [err64.2])
  rw [abs_of_pos h64pos, abs_le] at err32
  refine ⟨binary32.round (binary64.round ((a : ℚ) / (b : ℚ))), ?_, ?_, ?_, ?_, ?_⟩
  · rw [ratio_eq a b ha0 (by omega) hb0 (by omega), e64]
    exact e32
  all_goals
    norm_num at err64 err32 ⊢
    linarith [err64.1, err64.2, err32.1, err32.2]

/-- The cast (int) of a finite float above -1 and below 2^31. -/
theorem cast_int_num (q : ℚ) (h0 : -1 < q) (h1 : q < 2147483648) :
    (fval.num q).cast_int = int_of_float q := by
  obtain ⟨b0, b1, -⟩ := int_of_float_bounds q h0
  have h2 : ((int_of_float q : Int) : ℚ) < ((2147483648 : Int) : ℚ) := by
    push_cast
    exact lt_of_le_of_lt b1 (max_lt h1 (by norm_num))
  have h3 : int_of_float q < 2147483648 := by exact_mod_cast h2
  show (if -2147483648 ≤ int_of_float q ∧ int_of_float q < 2147483648 then int_of_float q
    else -2147483648) = int_of_float q
  rw [if_pos ⟨by omega, h3⟩]

/-- The float expression  (t - X) / 2  cast to int, for a positive int t below
2^20 and a float X between 0 and t + 1: the cast of a value within 1/8 of the
exact half difference. -/
theorem half_gap_cast (t : Int) (X : ℚ) (ht0 : 0 < t) (ht1 : t < 1048576) (hX0 : 0 ≤ X)
    (hX1 : X ≤ (t : ℚ) + 1) :
    ∃ G : ℚ,
      (binary32.div (binary32.sub (binary32.of_int t) (fval.num X))
        (binary32.of_int 2)).cast_int = int_of_float G ∧
      |G - ((t : ℚ) - X) / 2| ≤ 1 / 8 := by
  have ht : (1 : ℚ) ≤ (t : ℚ) := by exact_mod_cast ht0
  have ht2 : (t : ℚ) ≤ 1048575 := by exact_mod_cast Int.lt_add_one_iff.mp ht1
  have hd := binary32_round_err ((t : ℚ) - X)
  have hdabs : |(t : ℚ) - X| ≤ 1048575 := by
    rw [abs_le]
    constructor <;> linarith
  have hr : |binary32.round ((t : ℚ) - X)| ≤ 1048576 := by
    have := abs_add (binary32.round ((t : ℚ) - X) - ((t : ℚ) - X)) ((t : ℚ) - X)
    rw [sub_add_cancel] at this
    norm_num at hd
    linarith
  have hg := binary32_round_err (binary32.round ((t : ℚ) - X) / 2)
  have hr2 : |binary32.round ((t : ℚ) - X) / 2| ≤ 524288 := by
    rw [abs_div, abs_of_pos (by norm_num : (0 : ℚ) < 2)]
    linarith
  have herr : |binary32.round (binary32.round ((t : ℚ) - X) / 2) - ((t : ℚ) - X) / 2|
      ≤ 1 / 8 := by
    have e : binary32.round (binary32.round ((t : ℚ) - X) / 2) - ((t : ℚ) - X) / 2
        = (binary32.round (binary32.round ((t : ℚ) - X) / 2)
            - binary32.round ((t : ℚ) - X) / 2)
          + (binary32.round ((t : ℚ) - X) - ((t : ℚ) - X)) / 2 := by ring
    rw [e]
    refine (abs_add _ _).trans ?_
    rw [abs_div, abs_of_pos (by norm_num : (0 : ℚ) < 2)]
    norm_num at hd hg
    linarith
  have hG0 : -1 < binary32.round (binary32.round ((t : ℚ) - X) / 2) := by
    rw [abs_le] at herr
    linarith [herr.1]
  have hG1 : binary32.round (binary32.round ((t : ℚ) - X) / 2) < 2147483648 := by
    rw [abs_le] at herr
    linarith [herr.2]
  have hzero : int_of_float 0 = 0 := int_of_float_small 0 (by norm_num) (by norm_num)
  rw [binary32_of_int t ht0 (by omega), binary32_of_int 2 (by norm_num) (by norm_num)]
  refine ⟨binary32.round (binary32.round ((t : ℚ) - X) / 2), ?_, herr⟩
  have hsub : binary32.sub (fval.num (t : ℚ)) (fval.num X)
      = (if (t : ℚ) - X = 0 then fval.zero false else binary32.of_rat ((t : ℚ) - X)) := rfl
  have hfin : (binary32.sub (fval.num (t : ℚ)) (fval.num X)
        = fval.num (binary32.round ((t : ℚ) - X)) ∧ binary32.round ((t : ℚ) - X) ≠ 0) ∨
      (∃ b, binary32.sub (fval.num (t : ℚ)) (fval.num X) = fval.zero b ∧
        binary32.round ((t : ℚ) - X) = 0) := by
    rw [hsub]
    by_cases hz : (t : ℚ) - X = 0
    · rw [if_pos hz, hz]
      exact Or.inr ⟨false, rfl, round_zero _⟩
    · rw [if_neg hz]
      exact binary32_of_rat_finite _ (lt_of_le_of_lt hdabs (by norm_num))
  rcases hfin with ⟨e1, -⟩ | ⟨b, e1, e2⟩
  · rw [e1]
    show (binary32.of_rat (binary32.round ((t : ℚ) - X) / ((2 : Int) : ℚ))).cast_int = _
    have e3 : (((2 : Int) : ℚ)) = 2 := by norm_num
    rw [e3]
    rcases binary32_of_rat_finite (binary32.round ((t : ℚ) - X) / 2)
      (lt_of_le_of_lt hr2 (by norm_num)) with ⟨e4, -⟩ | ⟨b, e4, e5⟩
    · rw [e4]
      exact cast_int_num _ hG0 hG1
    · rw [e4, e5, hzero]
      rfl
  · rw [e1, e2, zero_div, round_zero, hzero]
    rfl

/-- Rounding to the nearest integer stays between the floor and the floor
plus 1. -/
theorem round_even_floor (y : ℚ) : ⌊y⌋ ≤ round_even y ∧ round_even y ≤ ⌊y⌋ + 1 := by
  unfold round_even
  split_ifs <;> constructor <;> omega

/-- Rounding to the nearest integer is monotone. -/
theorem round_even_mono (a b : ℚ) (h : a ≤ b) : round_even a ≤ round_even b := by
  have hfl : ⌊a⌋ ≤ ⌊b⌋ := Int.floor_mono h
  rcases lt_or_eq_of_le hfl with hlt | heq
  · have h1 := (round_even_floor a).2
    have h2 := (round_even_floor b).1
    omega
  · unfold round_even
    rw [heq]
    split_ifs <;> first | omega | (exfalso; linarith)

/-- Float rounding of positive values is monotone. -/
theorem round_mono (f : fmt) (x y : ℚ) (hp : 1 ≤ f.prec) (hx : 0 < x) (h : x ≤ y) :
    f.round x ≤ f.round y := by
  have hy : 0 < y := lt_of_lt_of_le hx h
  have hlog : Int.log 2 |x| ≤ Int.log 2 |y| := by
    rw [abs_of_pos hx, abs_of_pos hy]
    exact Int.log_mono_right hx h
  have hexy : f.ulp_exp x ≤ f.ulp_exp y := by
    unfold fmt.ulp_exp
    exact max_le_max (by omega) (le_refl _)
  rcases lt_or_eq_of_le hexy with hlt | heq
  · -- the values are separated by the power of two 2 ^ Int.log 2 y
    have hey : f.ulp_exp y = Int.log 2 |y| - ((f.prec : Int) - 1) := by
      unfold fmt.ulp_exp at hlt ⊢
      rcases le_total (Int.log 2 |y| - ((f.prec : Int) - 1)) f.emin with hc | hc
      · rw [max_eq_right hc] at hlt
        have := le_max_right (Int.log 2 |x| - ((f.prec : Int) - 1)) f.emin
        omega
      · exact max_eq_left hc
    have hex : Int.log 2 |x| - ((f.prec : Int) - 1) ≤ f.ulp_exp x := le_max_left _ _
    have hLxy : Int.log 2 |x| < Int.log 2 |y| := by omega
    have hxB : x < (2 : ℚ) ^ Int.log 2 |y| := by
      have h1 : x < (2 : ℚ) ^ (Int.log 2 |x| + 1) := by
        have := Int.lt_zpow_succ_log_self (b := 2) (by norm_num) |x|
        rw [abs_of_pos hx] at this ⊢
        exact_mod_cast this
      have h2 : (2 : ℚ) ^ (Int.log 2 |x| + 1) ≤ (2 : ℚ) ^ Int.log 2 |y| :=
        zpow_le_zpow_right₀ (by norm_num) (by omega)
      linarith
    have hBy : (2 : ℚ) ^ Int.log 2 |y| ≤ y := by
      have := Int.zpow_log_le_self (b := 2) (by norm_num) (abs_pos.mpr hy.ne.symm)
      rw [abs_of_pos hy] at this ⊢
      exact_mod_cast this
    -- both roundings compare with that power of two
    have key : ∀ e : Int, e ≤ Int.log 2 |y| →
        (2 : ℚ) ^ Int.log 2 |y| / (2 : ℚ) ^ e
          = (((2 : Int) ^ (Int.log 2 |y| - e).toNat : Int) : ℚ) := by
      intro e he
      have hn : ((Int.log 2 |y| - e).toNat : Int) = Int.log 2 |y| - e := Int.toNat_of_nonneg (by omega)
      rw [← zpow_sub₀ (by norm_num : (2 : ℚ) ≠ 0), ← hn, zpow_natCast]
      push_cast
      rfl
    have hpe : f.ulp_exp y ≤ Int.log 2 |y| := by omega
    have hpx : f.ulp_exp x ≤ Int.log 2 |y| := by omega
    have hux := two_zpow_pos (f.ulp_exp x)
    have huy := two_zpow_pos (f.ulp_exp y)
    have r1 : f.round x ≤ (2 : ℚ) ^ Int.log 2 |y| := by
      unfold fmt.round
      have hm := round_even_mono (x / (2 : ℚ) ^ f.ulp_exp x)
        ((2 : ℚ) ^ Int.log 2 |y| / (2 : ℚ) ^ f.ulp_exp x)
        (div_le_div_of_nonneg_right hxB.le hux.le)
      rw [key _ hpx, round_even_intCast] at hm
      have hm2 : ((round_even (x / (2 : ℚ) ^ f.ulp_exp x) : Int) : ℚ)
          ≤ (((2 : Int) ^ (Int.log 2 |y| - f.ulp_exp x).toNat : Int) : ℚ) := by
        exact_mod_cast hm
      rw [← key _ hpx] at hm2
      calc _ ≤ (2 : ℚ) ^ Int.log 2 |y| / (2 : ℚ) ^ f.ulp_exp x * (2 : ℚ) ^ f.ulp_exp x :=
            mul_le_mul_of_nonneg_right hm2 hux.le
        _ = _ := div_mul_cancel₀ _ hux.ne.symm
    have r2 : (2 : ℚ) ^ Int.log 2 |y| ≤ f.round y := by
      unfold fmt.round
      have hm := round_even_mono ((2 : ℚ) ^ Int.log 2 |y| / (2 : ℚ) ^ f.ulp_exp y)
        (y / (2 : ℚ) ^ f.ulp_exp y)
        (div_le_div_of_nonneg_right hBy huy.le)
      rw [key _ hpe, round_even_intCast] at hm
      have hm2 : (((2 : Int) ^ (Int.log 2 |y| - f.ulp_exp y).toNat : Int) : ℚ)
          ≤ ((round_even (y / (2 : ℚ) ^ f.ulp_exp y) : Int) : ℚ) := by
        exact_mod_cast hm
      rw [← key _ hpe] at hm2
      calc (2 : ℚ) ^ Int.log 2 |y|
          = (2 : ℚ) ^ Int.log 2 |y| / (2 : ℚ) ^ f.ulp_exp y * (2 : ℚ) ^ f.ulp_exp y :=
            (div_mul_cancel₀ _ huy.ne.symm).symm
        _ ≤ _ := mul_le_mul_of_nonneg_right hm2 huy.le
    exact r1.trans r2
  · unfold fmt.round
    rw [heq]
    have hu := two_zpow_pos (f.ulp_exp y)
    have hm := round_even_mono (x / (2 : ℚ) ^ f.ulp_exp y) (y / (2 : ℚ) ^ f.ulp_exp y)
      (div_le_div_of_nonneg_right h hu.le)
    have hm2 : ((round_even (x / (2 : ℚ) ^ f.ulp_exp y) : Int) : ℚ)
        ≤ ((round_even (y / (2 : ℚ) ^ f.ulp_exp y) : Int) : ℚ) := by exact_mod_cast hm
    exact mul_le_mul_of_nonneg_right hm2 hu.le

/-- The float value of  1.0 * a / b  for positive ints below 2^20, in closed
form: the double nearest to a / b, rounded to float. -/
theorem ratio_round (a b : Int) (ha0 : 0 < a) (ha1 : a < 1048576) (hb0 : 0 < b)
    (hb1 : b < 1048576) :
    binary32.cvt (binary64.div (binary64.mul (fval.num 1) (binary64.of_int a))
        (binary64.of_int b))
      = fval.num (binary32.round (binary64.round ((a : ℚ) / (b : ℚ)))) ∧
    0 < binary64.round ((a : ℚ) / (b : ℚ)) := by
  have ha : (1 : ℚ) ≤ (a : ℚ) := by exact_mod_cast ha0
  have ha2 : (a : ℚ) ≤ 1048575 := by exact_mod_cast Int.lt_add_one_iff.mp ha1
  have hb : (1 : ℚ) ≤ (b : ℚ) := by exact_mod_cast hb0
  have hb2 : (b : ℚ) ≤ 1048575 := by exact_mod_cast Int.lt_add_one_iff.mp hb1
  have hbpos : (0 : ℚ) < (b : ℚ) := by linarith
  have hr1 : 1 / 1048575 ≤ (a : ℚ) / (b : ℚ) := by
    rw [le_div_iff₀ hbpos]
    linarith
  have hr2 : (a : ℚ) / (b : ℚ) ≤ 1048575 := by
    rw [div_le_iff₀ hbpos]
    nlinarith
  have hrpos : (0 : ℚ) < (a : ℚ) / (b : ℚ) := by linarith
  obtain ⟨e64, err64⟩ := binary64_of_rat ((a : ℚ) / (b : ℚ))
    (by rw [abs_of_pos hrpos]; norm_num; linarith)
    (by rw [abs_of_pos hrpos]; norm_num; linarith)
  rw [abs_of_pos hrpos, abs_le] at err64
  have h64pos : 0 < binary64.round ((a : ℚ) / (b : ℚ)) := by
    norm_num at err64
    linarith [err64.1]
  obtain ⟨e32, -⟩ := binary32_of_rat (binary64.round ((a : ℚ) / (b : ℚ)))
    (by rw [abs_of_pos h64pos]; norm_num at err64 ⊢; linarith [err64.1])
    (by rw [abs_of_pos h64pos]; norm_num at err64 ⊢; linarith [err64.2])
  refine ⟨?_, h64pos⟩
  rw [ratio_eq a b ha0 (by omega) hb0 (by omega), e64]
  exact e32

/-- The padding block when source_ar >= dest_ar. -/
theorem image_resize_aspect_ge (im : image) (h : (source_ar im).ge (dest_ar im) = true) :
    image_resize_aspect im =
      { im with
        height_padding :=
          (binary32.div
            (binary32.sub (binary32.of_int im.target_height)
              (binary32.div (binary32.of_int im.target_width) (source_ar im)))
            (binary32.of_int 2)).cast_int
        height_inner :=
          (binary32.div (binary32.of_int im.target_width) (source_ar im)).cast_int } := by
  unfold image_resize_aspect
  rw [if_pos h]

/-- The padding block when source_ar < dest_ar (or one of them is NaN). -/
theorem image_resize_aspect_lt (im : image) (h : ¬ (source_ar im).ge (dest_ar im) = true) :
    image_resize_aspect im =
      { im with
        width_padding :=
          (binary32.div
            (binary32.sub (binary32.of_int im.target_width)
              (binary32.mul (binary32.of_int im.target_height) (source_ar im)))
            (binary32.of_int 2)).cast_int
        width_inner :=
          (binary32.mul (binary32.of_int im.target_height) (source_ar im)).cast_int } := by
  unfold image_resize_aspect
  rw [if_neg h]

/-- The padding block when source_ar >= dest_ar, for positive dimensions below
2^20: height_inner is the cast of a float X within 3/8 of the exact quotient
x = target_width / (width / height), which is at most target_height + 3/8, and
height_padding is the cast of a float G within 1/8 of (target_height - X) / 2. -/
theorem aspect_height (im : image)
    (hw0 : 0 < im.width) (hw1 : im.width < 1048576)
    (hh0 : 0 < im.height) (hh1 : im.height < 1048576)
    (htw0 : 0 < im.target_width) (htw1 : im.target_width < 1048576)
    (hth0 : 0 < im.target_height) (hth1 : im.target_height < 1048576)
    (hge : (source_ar im).ge (dest_ar im) = true) :
    ∃ X G : ℚ,
      image_resize_aspect im
        = { im with height_padding := int_of_float G, height_inner := int_of_float X } ∧
      0 ≤ X ∧
      |X - (im.target_width : ℚ) / ((im.width : ℚ) / (im.height : ℚ))| ≤ 3 / 8 ∧
      (im.target_width : ℚ) / ((im.width : ℚ) / (im.height : ℚ))
        ≤ (im.target_height : ℚ) + 3 / 8 ∧
      |G - ((im.target_height : ℚ) - X) / 2| ≤ 1 / 8 := by
  obtain ⟨S, hS, hS1, hS2, hS3, hS4⟩ := ratio_num im.width im.height hw0 hw1 hh0 hh1
  obtain ⟨D, hD, hD1, hD2, -, -⟩ :=
    ratio_num im.target_width im.target_height htw0 htw1 hth0 hth1
  have hs : source_ar im = fval.num S := hS
  have hd : dest_ar im = fval.num D := hD
  have hDS : D ≤ S := by
    rw [hs, hd] at hge
    simpa [fval.ge, fval.val] using hge
  have hW : (1 : ℚ) ≤ (im.width : ℚ) := by exact_mod_cast hw0
  have hH : (1 : ℚ) ≤ (im.height : ℚ) := by exact_mod_cast hh0
  have hTW : (1 : ℚ) ≤ (im.target_width : ℚ) := by exact_mod_cast htw0
  have hTH : (1 : ℚ) ≤ (im.target_height : ℚ) := by exact_mod_cast hth0
  have hTW2 : (im.target_width : ℚ) ≤ 1048575 := by
    exact_mod_cast Int.lt_add_one_iff.mp htw1
  have hTH2 : (im.target_height : ℚ) ≤ 1048575 := by
    exact_mod_cast Int.lt_add_one_iff.mp hth1
  have hSpos : 0 < S := by linarith
  have hρ : (0 : ℚ) < (im.width : ℚ) / (im.height : ℚ) := by positivity
  -- the float quotient target_width / source_ar
  have hq0 : 0 < (im.target_width : ℚ) / S := by positivity
  have hq1 : 1 / 2097152 ≤ (im.target_width : ℚ) / S := by
    rw [le_div_iff₀ hSpos]
    linarith
  have hq2 : (im.target_width : ℚ) / S ≤ 2199023255552 := by
    rw [div_le_iff₀ hSpos]
    linarith
  obtain ⟨eX, errX⟩ := binary32_of_rat ((im.target_width : ℚ) / S)
    (by rw [abs_of_pos hq0]; norm_num; linarith)
    (by rw [abs_of_pos hq0]; norm_num; linarith)
  rw [abs_of_pos hq0, abs_le] at errX
  -- the exact quotient against the float quotient
  have hxq : (im.target_width : ℚ) / ((im.width : ℚ) / (im.height : ℚ))
        * ((im.width : ℚ) / (im.height : ℚ))
      = (im.target_width : ℚ) / S * S := by
    rw [div_mul_cancel₀ _ hρ.ne.symm, div_mul_cancel₀ _ hSpos.ne.symm]
  have hx1 : (im.target_width : ℚ) / ((im.width : ℚ) / (im.height : ℚ))
      ≤ 8388609 / 8388608 * ((im.target_width : ℚ) / S) := by
    refine le_of_mul_le_mul_right ?_ hρ
    rw [hxq]
    have := mul_le_mul_of_nonneg_left hS2 hq0.le
    linarith
  have hx2 : 8388607 / 8388608 * ((im.target_width : ℚ) / S)
      ≤ (im.target_width : ℚ) / ((im.width : ℚ) / (im.height : ℚ)) := by
    refine le_of_mul_le_mul_right ?_ hρ
    rw [hxq]
    have := mul_le_mul_of_nonneg_left hS1 hq0.le
    linarith
  -- the branch condition bounds the exact quotient by target_height
  have hσ : (im.target_width : ℚ) / (im.target_height : ℚ) * (im.target_height : ℚ)
      = (im.target_width : ℚ) := div_mul_cancel₀ _ (by linarith : (im.target_height : ℚ) ≠ 0)
  have hbr : 8388607 / 8388608 * ((im.target_width : ℚ) / ((im.width : ℚ) / (im.height : ℚ)))
      ≤ 8388609 / 8388608 * (im.target_height : ℚ) := by
    refine le_of_mul_le_mul_right ?_ hρ
    have e1 : 8388607 / 8388608
        * ((im.target_width : ℚ) / ((im.width : ℚ) / (im.height : ℚ)))
        * ((im.width : ℚ) / (im.height : ℚ))
        = 8388607 / 8388608 * (im.target_width : ℚ) := by
      rw [mul_assoc, div_mul_cancel₀ _ hρ.ne.symm]
    rw [e1]
    have e2 : 8388607 / 8388608 * ((im.target_width : ℚ) / (im.target_height : ℚ))
        * (im.target_height : ℚ) = 8388607 / 8388608 * (im.target_width : ℚ) := by
      rw [mul_assoc, hσ]
    have := mul_le_mul_of_nonneg_right (hD1.trans (hDS.trans hS2))
      (by linarith : (0 : ℚ) ≤ (im.target_height : ℚ))
    rw [e2] at this
    linarith
  have hxTH : (im.target_width : ℚ) / ((im.width : ℚ) / (im.height : ℚ))
      ≤ (im.target_height : ℚ) + 3 / 8 := by linarith
  have hXerr : |binary32.round ((im.target_width : ℚ) / S)
      - (im.target_width : ℚ) / ((im.width : ℚ) / (im.height : ℚ))| ≤ 3 / 8 := by
    rw [abs_le]
    norm_num at errX
    constructor <;> linarith [errX.1, errX.2]
  have hX0 : 0 ≤ binary32.round ((im.target_width : ℚ) / S) := by
    norm_num at errX
    linarith [errX.1]
  have hX1 : binary32.round ((im.target_width : ℚ) / S) ≤ (im.target_height : ℚ) + 1 := by
    rw [abs_le] at hXerr
    linarith [hXerr.2]
  obtain ⟨G, eG, errG⟩ := half_gap_cast im.target_height
    (binary32.round ((im.target_width : ℚ) / S)) hth0 hth1 hX0 hX1
  have eq : binary32.div (binary32.of_int im.target_width) (source_ar im)
      = fval.num (binary32.round ((im.target_width : ℚ) / S)) := by
    rw [hs, binary32_of_int im.target_width htw0 (by omega)]
    exact eX
  refine ⟨binary32.round ((im.target_width : ℚ) / S), G, ?_, hX0, hXerr, hxTH, errG⟩
  rw [image_resize_aspect_ge im hge, eq, eG,
    cast_int_num _ (by linarith) (by linarith)]

/-- The padding block when source_ar < dest_ar, for positive dimensions below
2^20: width_inner is the cast of a float Y within 3/8 of the exact product
y = target_height * (width / height), which is at most target_width + 3/8, and
width_padding is the cast of a float E within 1/8 of (target_width - Y) / 2. -/
theorem aspect_width (im : image)
    (hw0 : 0 < im.width) (hw1 : im.width < 1048576)
    (hh0 : 0 < im.height) (hh1 : im.height < 1048576)
    (htw0 : 0 < im.target_width) (htw1 : im.target_width < 1048576)
    (hth0 : 0 < im.target_height) (hth1 : im.target_height < 1048576)
    (hlt : ¬ (source_ar im).ge (dest_ar im) = true) :
    ∃ Y E : ℚ,
      image_resize_aspect im
        = { im with width_padding := int_of_float E, width_inner := int_of_float Y } ∧
      0 ≤ Y ∧
      |Y - (im.target_height : ℚ) * ((im.width : ℚ) / (im.height : ℚ))| ≤ 3 / 8 ∧
      (im.target_height : ℚ) * ((im.width : ℚ) / (im.height : ℚ))
        ≤ (im.target_width : ℚ) + 3 / 8 ∧
      |E - ((im.target_width : ℚ) - Y) / 2| ≤ 1 / 8 := by
  obtain ⟨S, hS, hS1, hS2, hS3, hS4⟩ := ratio_num im.width im.height hw0 hw1 hh0 hh1
  obtain ⟨D, hD, hD1, hD2, -, -⟩ :=
    ratio_num im.target_width im.target_height htw0 htw1 hth0 hth1
  have hs : source_ar im = fval.num S := hS
  have hd : dest_ar im = fval.num D := hD
  have hSD : S < D := by
    rw [hs, hd] at hlt
    simpa [fval.ge, fval.val] using hlt
  have hTW : (1 : ℚ) ≤ (im.target_width : ℚ) := by exact_mod_cast htw0
  have hTH : (1 : ℚ) ≤ (im.target_height : ℚ) := by exact_mod_cast hth0
  have hTW2 : (im.target_width : ℚ) ≤ 1048575 := by
    exact_mod_cast Int.lt_add_one_iff.mp htw1
  have hTH2 : (im.target_height : ℚ) ≤ 1048575 := by
    exact_mod_cast Int.lt_add_one_iff.mp hth1
  have hSpos : 0 < S := by linarith
  have hm0 : 0 < (im.target_height : ℚ) * S := by positivity
  have hm1 : 1 / 2097152 ≤ (im.target_height : ℚ) * S := by nlinarith
  have hm2 : (im.target_height : ℚ) * S ≤ 2199023255552 := by nlinarith
  obtain ⟨eY, errY⟩ := binary32_of_rat ((im.target_height : ℚ) * S)
    (by rw [abs_of_pos hm0]; norm_num; linarith)
    (by rw [abs_of_pos hm0]; norm_num; linarith)
  rw [abs_of_pos hm0, abs_le] at errY
  have hy1 : (im.target_height : ℚ) * S
      ≤ 8388609 / 8388608 * ((im.target_height : ℚ) * ((im.width : ℚ) / (im.height : ℚ))) := by
    have := mul_le_mul_of_nonneg_left hS2 (by linarith : (0 : ℚ) ≤ (im.target_height : ℚ))
    linarith
  have hy2 : 8388607 / 8388608 * ((im.target_height : ℚ) * ((im.width : ℚ) / (im.height : ℚ)))
      ≤ (im.target_height : ℚ) * S := by
    have := mul_le_mul_of_nonneg_left hS1 (by linarith : (0 : ℚ) ≤ (im.target_height : ℚ))
    linarith
  have hσ : (im.target_width : ℚ) / (im.target_height : ℚ) * (im.target_height : ℚ)
      = (im.target_width : ℚ) := div_mul_cancel₀ _ (by linarith : (im.target_height : ℚ) ≠ 0)
  have hbr : 8388607 / 8388608
        * ((im.target_height : ℚ) * ((im.width : ℚ) / (im.height : ℚ)))
      ≤ 8388609 / 8388608 * (im.target_width : ℚ) := by
    have := mul_le_mul_of_nonneg_right (hS1.trans (hSD.le.trans hD2))
      (by linarith : (0 : ℚ) ≤ (im.target_height : ℚ))
    have e2 : 8388609 / 8388608 * ((im.target_width : ℚ) / (im.target_height : ℚ))
        * (im.target_height : ℚ) = 8388609 / 8388608 * (im.target_width : ℚ) := by
      rw [mul_assoc, hσ]
    rw [e2] at this
    linarith
  have hyTW : (im.target_height : ℚ) * ((im.width : ℚ) / (im.height : ℚ))
      ≤ (im.target_width : ℚ) + 3 / 8 := by linarith
  have hYerr : |binary32.round ((im.target_height : ℚ) * S)
      - (im.target_height : ℚ) * ((im.width : ℚ) / (im.height : ℚ))| ≤ 3 / 8 := by
    rw [abs_le]
    norm_num at errY
    constructor <;> linarith [errY.1, errY.2]
  have hY0 : 0 ≤ binary32.round ((im.target_height : ℚ) * S) := by
    norm_num at errY
    linarith [errY.1]
  have hY1 : binary32.round ((im.target_height : ℚ) * S) ≤ (im.target_width : ℚ) + 1 := by
    rw [abs_le] at hYerr
    linarith [hYerr.2]
  obtain ⟨E, eE, errE⟩ := half_gap_cast im.target_width
    (binary32.round ((im.target_height : ℚ) * S)) htw0 htw1 hY0 hY1
  have eq : binary32.mul (binary32.of_int im.target_height) (source_ar im)
      = fval.num (binary32.round ((im.target_height : ℚ) * S)) := by
    rw [hs, binary32_of_int im.target_height hth0 (by omega)]
    exact eY
  refine ⟨binary32.round ((im.target_height : ℚ) * S), E, ?_, hY0, hYerr, hyTW, errE⟩
  rw [image_resize_aspect_lt im hlt, eq, eE,
    cast_int_num _ (by linarith) (by linarith)]

/-- A value half-way between two integers rounds to the even one. -/
theorem round_even_tie (m : Int) :
    round_even ((m : ℚ) + 1 / 2) = if m % 2 = 0 then m else m + 1 := by
  have hf : ⌊(m : ℚ) + 1 / 2⌋ = m := by
    rw [Int.floor_eq_iff]
    constructor <;> linarith
  unfold round_even
  rw [hf]
  have e : (m : ℚ) + 1 / 2 - (m : ℚ) = 1 / 2 := by ring
  rw [e, if_neg (lt_irrefl _), if_neg (lt_irrefl _)]

/-- The float value of x, from its binary exponent L and the integer n that
its scaled significand rounds to. -/
theorem binary32_round_eval (x : ℚ) (L n : Int) (r : ℚ) (h1 : (2 : ℚ) ^ L ≤ |x|)
    (h2 : |x| < (2 : ℚ) ^ (L + 1)) (hL1 : -100 ≤ L) (hL2 : L ≤ 98)
    (hn : round_even (x / (2 : ℚ) ^ (L - 23)) = n)
    (hr : (n : ℚ) * (2 : ℚ) ^ (L - 23) = r) : binary32.of_rat x = fval.num r := by
  have e : L - ((binary32.prec : Int) - 1) = L - 23 := by
    show L - (((24 : Nat) : Int) - 1) = L - 23
    norm_num
  have hu := ulp_exp_eq binary32 x L h1 h2 (by rw [e]; show (-149 : Int) ≤ L - 23; omega)
  have hr2 : binary32.round x = r := by
    unfold fmt.round
    rw [hu, e, hn, hr]
  have a1 : (1 : ℚ) / 2 ^ 100 ≤ (2 : ℚ) ^ L := by
    have : (2 : ℚ) ^ (-100 : Int) ≤ (2 : ℚ) ^ L := zpow_le_zpow_right₀ (by norm_num) hL1
    refine le_trans ?_ this
    norm_num
  have a2 : (2 : ℚ) ^ (L + 1) ≤ 2 ^ 100 := by
    have : (2 : ℚ) ^ (L + 1) ≤ (2 : ℚ) ^ (99 : Int) :=
      zpow_le_zpow_right₀ (by norm_num) (by omega)
    refine le_trans this ?_
    norm_num
  obtain ⟨h, -⟩ := binary32_of_rat x (a1.trans h1) (lt_of_lt_of_le h2 a2)
  rw [h, hr2]

/-- The float value of x, from its binary exponent L and the integer n nearest
to its scaled significand. -/
theorem binary32_eval (x : ℚ) (L n : Int) (r : ℚ) (h1 : (2 : ℚ) ^ L ≤ |x|)
    (h2 : |x| < (2 : ℚ) ^ (L + 1)) (hL1 : -100 ≤ L) (hL2 : L ≤ 98)
    (hn : |x / (2 : ℚ) ^ (L - 23) - (n : ℚ)| < 1 / 2)
    (hr : (n : ℚ) * (2 : ℚ) ^ (L - 23) = r) : binary32.of_rat x = fval.num r :=
  binary32_round_eval x L n r h1 h2 hL1 hL2 (round_even_eq _ n hn) hr

/-- The double value of x, from its binary exponent L and the integer n
nearest to its scaled significand. -/
theorem binary64_eval (x : ℚ) (L n : Int) (r : ℚ) (h1 : (2 : ℚ) ^ L ≤ |x|)
    (h2 : |x| < (2 : ℚ) ^ (L + 1)) (hL1 : -100 ≤ L) (hL2 : L ≤ 98)
    (hn : |x / (2 : ℚ) ^ (L - 52) - (n : ℚ)| < 1 / 2)
    (hr : (n : ℚ) * (2 : ℚ) ^ (L - 52) = r) : binary64.of_rat x = fval.num r := by
  have e : L - ((binary64.prec : Int) - 1) = L - 52 := by
    show L - (((53 : Nat) : Int) - 1) = L - 52
    norm_num
  have hr2 := round_eval binary64 x L n h1 h2
    (by rw [e]; show (-1074 : Int) ≤ L - 52; omega) (by rw [e]; exact hn)
  rw [e, hr] at hr2
  have a1 : (1 : ℚ) / 2 ^ 100 ≤ (2 : ℚ) ^ L := by
    have : (2 : ℚ) ^ (-100 : Int) ≤ (2 : ℚ) ^ L := zpow_le_zpow_right₀ (by norm_num) hL1
    refine le_trans ?_ this
    norm_num
  have a2 : (2 : ℚ) ^ (L + 1) ≤ 2 ^ 100 := by
    have : (2 : ℚ) ^ (L + 1) ≤ (2 : ℚ) ^ (99 : Int) :=
      zpow_le_zpow_right₀ (by norm_num) (by omega)
    refine le_trans this ?_
    norm_num
  obtain ⟨h, -⟩ := binary64_of_rat x (a1.trans h1) (lt_of_lt_of_le h2 a2)
  rw [h, hr2]

example : binary32.of_rat (-2) = fval.num (-2) :=
  binary32_eval (-2) 1 (-8388608) (-2) (by norm_num) (by norm_num)
    (by norm_num) (by norm_num) (by norm_num [abs_lt]) (by norm_num)

example : binary32.of_rat (25 / 2) = fval.num (25 / 2) :=
  binary32_eval (25 / 2) 3 13107200 (25 / 2) (by norm_num [abs_of_pos]) (by norm_num [abs_of_pos])
    (by norm_num) (by norm_num) (by norm_num [abs_lt]) (by norm_num)

/-- The cast (int) of a finite float whose integer part is in the int range. -/
theorem cast_int_eval (q : ℚ) (n : Int) (h : int_of_float q = n) (h0 : -2147483648 ≤ n)
    (h1 : n < 2147483648) : (fval.num q).cast_int = n := by
  show (if -2147483648 ≤ int_of_float q ∧ int_of_float q < 2147483648 then int_of_float q
    else -2147483648) = n
  rw [h, if_pos ⟨h0, h1⟩]

/-- The comparison source_ar >= dest_ar holds when the exact ratio of the source
exceeds the exact ratio of the target by the relative margin 2^-22. -/
theorem aspect_branch_ge (im : image)
    (hw0 : 0 < im.width) (hw1 : im.width < 1048576)
    (hh0 : 0 < im.height) (hh1 : im.height < 1048576)
    (htw0 : 0 < im.target_width) (htw1 : im.target_width < 1048576)
    (hth0 : 0 < im.target_height) (hth1 : im.target_height < 1048576)
    (h : im.target_width * im.height * 8388609 ≤ im.width * im.target_height * 8388607) :
    (source_ar im).ge (dest_ar im) = true := by
  obtain ⟨S, hS, hS1, -, -, -⟩ := ratio_num im.width im.height hw0 hw1 hh0 hh1
  obtain ⟨D, hD, -, hD2, -, -⟩ :=
    ratio_num im.target_width im.target_height htw0 htw1 hth0 hth1
  have hs : source_ar im = fval.num S := hS
  have hd : dest_ar im = fval.num D := hD
  have hH : (0 : ℚ) < (im.height : ℚ) := by exact_mod_cast hh0
  have hTH : (0 : ℚ) < (im.target_height : ℚ) := by exact_mod_cast hth0
  have hq : (im.target_width : ℚ) * (im.height : ℚ) * 8388609
      ≤ (im.width : ℚ) * (im.target_height : ℚ) * 8388607 := by exact_mod_cast h
  have key : 8388609 / 8388608 * ((im.target_width : ℚ) / (im.target_height : ℚ))
      ≤ 8388607 / 8388608 * ((im.width : ℚ) / (im.height : ℚ)) := by
    rw [← mul_div_assoc, ← mul_div_assoc, div_le_div_iff₀ hTH hH]
    linarith
  rw [hs, hd]
  exact decide_eq_true (hD2.trans (key.trans hS1))

/-- The comparison source_ar >= dest_ar fails when the exact ratio of the source
is below the exact ratio of the target by the relative margin 2^-22. -/
theorem aspect_branch_lt (im : image)
    (hw0 : 0 < im.width) (hw1 : im.width < 1048576)
    (hh0 : 0 < im.height) (hh1 : im.height < 1048576)
    (htw0 : 0 < im.target_width) (htw1 : im.target_width < 1048576)
    (hth0 : 0 < im.target_height) (hth1 : im.target_height < 1048576)
    (h : im.width * im.target_height * 8388609 < im.target_width * im.height * 8388607) :
    ¬ (source_ar im).ge (dest_ar im) = true := by
  obtain ⟨S, hS, -, hS2, -, -⟩ := ratio_num im.width im.height hw0 hw1 hh0 hh1
  obtain ⟨D, hD, hD1, -, -, -⟩ :=
    ratio_num im.target_width im.target_height htw0 htw1 hth0 hth1
  have hs : source_ar im = fval.num S := hS
  have hd : dest_ar im = fval.num D := hD
  have hH : (0 : ℚ) < (im.height : ℚ) := by exact_mod_cast hh0
  have hTH : (0 : ℚ) < (im.target_height : ℚ) := by exact_mod_cast hth0
  have hq : (im.width : ℚ) * (im.target_height : ℚ) * 8388609
      < (im.target_width : ℚ) * (im.height : ℚ) * 8388607 := by exact_mod_cast h
  have key : 8388609 / 8388608 * ((im.width : ℚ) / (im.height : ℚ))
      < 8388607 / 8388608 * ((im.target_width : ℚ) / (im.target_height : ℚ)) := by
    rw [← mul_div_assoc, ← mul_div_assoc, div_lt_div_iff₀ hH hTH]
    linarith
  rw [hs, hd]
  intro hc
  have hDS : D ≤ S := of_decide_eq_true hc
  linarith

/-- For equal exact ratios and positive dimensions below 2^20 the padding block
takes the branch source_ar >= dest_ar and stores height_padding = 0. -/
theorem aspect_equal_ratio (im : image)
    (hw0 : 0 < im.width) (hw1 : im.width < 1048576)
    (hh0 : 0 < im.height) (hh1 : im.height < 1048576)
    (htw0 : 0 < im.target_width) (htw1 : im.target_width < 1048576)
    (hth0 : 0 < im.target_height) (hth1 : im.target_height < 1048576)
    (h : im.width * im.target_height = im.height * im.target_width) :
    (image_resize_aspect im).height_padding = 0 ∧
    (image_resize_aspect im).width_padding = im.width_padding ∧
    (image_resize_aspect im).width_inner = im.width_inner := by
  have hW : (0 : ℚ) < (im.width : ℚ) := by exact_mod_cast hw0
  have hH : (0 : ℚ) < (im.height : ℚ) := by exact_mod_cast hh0
  have hTW : (0 : ℚ) < (im.target_width : ℚ) := by exact_mod_cast htw0
  have hTH : (0 : ℚ) < (im.target_height : ℚ) := by exact_mod_cast hth0
  have hq : (im.width : ℚ) * (im.target_height : ℚ)
      = (im.height : ℚ) * (im.target_width : ℚ) := by exact_mod_cast h
  have hsd : source_ar im = dest_ar im := by
    have hr : (im.width : ℚ) / (im.height : ℚ)
        = (im.target_width : ℚ) / (im.target_height : ℚ) := by
      rw [div_eq_div_iff hH.ne.symm hTH.ne.symm]
      linarith
    unfold source_ar dest_ar
    rw [ratio_eq _ _ hw0 (by omega) hh0 (by omega),
      ratio_eq _ _ htw0 (by omega) hth0 (by omega), hr]
  obtain ⟨S, hS, -, -, -, -⟩ := ratio_num im.width im.height hw0 hw1 hh0 hh1
  have hs : source_ar im = fval.num S := hS
  have hge : (source_ar im).ge (dest_ar im) = true := by
    rw [← hsd, hs]
    exact decide_eq_true (le_refl S)
  obtain ⟨X, G, e, hX0, hX, -, hG⟩ :=
    aspect_height im hw0 hw1 hh0 hh1 htw0 htw1 hth0 hth1 hge
  have hx : (im.target_width : ℚ) / ((im.width : ℚ) / (im.height : ℚ))
      = (im.target_height : ℚ) := by
    rw [div_div_eq_mul_div, div_eq_iff hW.ne.symm]
    linarith
  rw [hx, abs_le] at hX
  rw [abs_le] at hG
  rw [e]
  refine ⟨int_of_float_small G (by linarith [hG.1, hX.2]) (by linarith [hG.2, hX.1]), rfl, rfl⟩

/-- The comparison source_ar >= dest_ar holds whenever the exact ratio of the
source is at least the exact ratio of the target: rounding is monotone. -/
theorem aspect_branch_exact (im : image)
    (hw0 : 0 < im.width) (hw1 : im.width < 1048576)
    (hh0 : 0 < im.height) (hh1 : im.height < 1048576)
    (htw0 : 0 < im.target_width) (htw1 : im.target_width < 1048576)
    (hth0 : 0 < im.target_height) (hth1 : im.target_height < 1048576)
    (h : im.target_width * im.height ≤ im.width * im.target_height) :
    (source_ar im).ge (dest_ar im) = true := by
  obtain ⟨hS, -⟩ := ratio_round im.width im.height hw0 hw1 hh0 hh1
  obtain ⟨hD, hDpos⟩ := ratio_round im.target_width im.target_height htw0 htw1 hth0 hth1
  have hs : source_ar im = fval.num
      (binary32.round (binary64.round ((im.width : ℚ) / (im.height : ℚ)))) := hS
  have hd : dest_ar im = fval.num
      (binary32.round (binary64.round ((im.target_width : ℚ) / (im.target_height : ℚ)))) := hD
  have hH : (0 : ℚ) < (im.height : ℚ) := by exact_mod_cast hh0
  have hTW : (0 : ℚ) < (im.target_width : ℚ) := by exact_mod_cast htw0
  have hTH : (0 : ℚ) < (im.target_height : ℚ) := by exact_mod_cast hth0
  have hq : (im.target_width : ℚ) * (im.height : ℚ)
      ≤ (im.width : ℚ) * (im.target_height : ℚ) := by exact_mod_cast h
  have hle : (im.target_width : ℚ) / (im.target_height : ℚ)
      ≤ (im.width : ℚ) / (im.height : ℚ) := by
    rw [div_le_div_iff₀ hTH hH]
    exact hq
  have m64 := round_mono binary64 _ _ (by decide) (div_pos hTW hTH) hle
  have m32 := round_mono binary32 _ _ (by decide) hDpos m64
  rw [hs, hd]
  exact decide_eq_true m32

/-! ## Evaluations of the padding block at sample dimensions -/

/-- The padding block for a 12 x 11270702 source and an 18 x 16906053 target. -/
theorem aspect_eval_12_18 (im : image) (hw : im.width = 12) (hh : im.height = 11270702)
    (htw : im.target_width = 18) (hth : im.target_height = 16906053) :
    image_resize_aspect im = { im with height_padding := (-1), height_inner := 16906054 } := by
  have hs : source_ar im = fval.num (9365265 / 8796093022208) := by
    unfold source_ar
    rw [hw, hh, ratio_eq 12 11270702 (by norm_num) (by norm_num) (by norm_num) (by norm_num)]
    rw [binary64_eval (((12 : Int) : ℚ) / ((11270702 : Int) : ℚ)) (-20) 5027938614155156 (1256984653538789 / 1180591620717411303424)
      (by norm_num [abs_of_pos]) (by norm_num [abs_of_pos])
      (by norm_num) (by norm_num) (by norm_num [abs_lt]) (by norm_num)]
    exact binary32_eval ((1256984653538789 / 1180591620717411303424)) (-20) 9365265 (9365265 / 8796093022208)
      (by norm_num [abs_of_pos]) (by norm_num [abs_of_pos])
      (by norm_num) (by norm_num) (by norm_num [abs_lt]) (by norm_num)
  have hd : dest_ar im = fval.num (9365265 / 8796093022208) := by
    unfold dest_ar
    rw [htw, hth, ratio_eq 18 16906053 (by norm_num) (by norm_num) (by norm_num) (by norm_num)]
    rw [binary64_eval (((18 : Int) : ℚ) / ((16906053 : Int) : ℚ)) (-20) 5027938614155156 (1256984653538789 / 1180591620717411303424)
      (by norm_num [abs_of_pos]) (by norm_num [abs_of_pos])
      (by norm_num) (by norm_num) (by norm_num [abs_lt]) (by norm_num)]
    exact binary32_eval ((1256984653538789 / 1180591620717411303424)) (-20) 9365265 (9365265 / 8796093022208)
      (by norm_num [abs_of_pos]) (by norm_num [abs_of_pos])
      (by norm_num) (by norm_num) (by norm_num [abs_lt]) (by norm_num)
  have hge : (source_ar im).ge (dest_ar im) = true := by
    rw [hs, hd]
    exact decide_eq_true (show ((9365265 / 8796093022208) : ℚ) ≥ (9365265 / 8796093022208) by norm_num)
  have e1 : binary32.of_int 18 = fval.num 18 :=
    (binary32_of_int 18 (by norm_num) (by norm_num)).trans (by norm_num)
  have e2 : binary32.of_int 16906053 = fval.num 16906052 :=
    by
    unfold fmt.of_int
    rw [if_neg (show ¬ ((16906053 : Int) = 0) by norm_num)]
    exact binary32_round_eval (((16906053 : Int) : ℚ)) 24 8453026 16906052
      (by norm_num [abs_of_pos]) (by norm_num [abs_of_pos])
      (by norm_num)
      (by norm_num)
      (by
        rw [show (((16906053 : Int) : ℚ) : ℚ) / (2 : ℚ) ^ ((24 : Int) - 23) = ((8453026 : Int) : ℚ) + 1 / 2 by norm_num,
          round_even_tie]
        norm_num)
      (by norm_num)
  have e3 : binary32.of_int 2 = fval.num 2 :=
    (binary32_of_int 2 (by norm_num) (by norm_num)).trans (by norm_num)
  have e4 : binary32.div (fval.num 18) (fval.num (9365265 / 8796093022208)) = fval.num 16906054 := by
    show binary32.of_rat (18 / (9365265 / 8796093022208)) = _
    exact binary32_eval (18 / (9365265 / 8796093022208)) 24 8453027 16906054
      (by norm_num [abs_of_pos]) (by norm_num [abs_of_pos])
      (by norm_num) (by norm_num) (by norm_num [abs_lt]) (by norm_num)
  have e5 : binary32.sub (fval.num 16906052) (fval.num 16906054) = fval.num (-2) := by
    show (if (16906052 : ℚ) - 16906054 = 0 then fval.zero false else binary32.of_rat (16906052 - 16906054)) = _
    rw [if_neg (show ¬ ((16906052 : ℚ) - 16906054 = 0) by norm_num)]
    exact binary32_eval (16906052 - 16906054) 1 (-8388608) (-2)
      (by norm_num [abs_of_pos]) (by norm_num [abs_of_pos])
      (by norm_num) (by norm_num) (by norm_num [abs_lt]) (by norm_num)
  have e6 : binary32.div (fval.num (-2)) (fval.num 2) = fval.num (-1) := by
    show binary32.of_rat ((-2) / 2) = _
    exact binary32_eval ((-2) / 2) 0 (-8388608) (-1)
      (by norm_num [abs_of_pos]) (by norm_num [abs_of_pos])
      (by norm_num) (by norm_num) (by norm_num [abs_lt]) (by norm_num)
  have i1 : int_of_float 16906054 = 16906054 :=
    int_of_float_floor 16906054 16906054 (by norm_num) (by norm_num) (by norm_num)
  have i2 : int_of_float (-1) = (-1) :=
    by
    have h := int_of_float_neg 1
    rw [int_of_float_floor 1 1 (by norm_num) (by norm_num) (by norm_num)] at h
    exact h
  have e7 : (fval.num 16906054).cast_int = 16906054 := cast_int_eval _ _ i1 (by norm_num) (by norm_num)
  have e8 : (fval.num (-1)).cast_int = (-1) := cast_int_eval _ _ i2 (by norm_num) (by norm_num)
  rw [image_resize_aspect_ge im hge]
  simp only [hs, htw, hth, e1, e2, e3, e4, e5, e6, e7, e8]

/-- The padding block for a 44 x 10979749 source and a 36 x 8983431 target. -/
theorem aspect_eval_44_36 (im : image) (hw : im.width = 44) (hh : im.height = 10979749)
    (htw : im.target_width = 36) (hth : im.target_height = 8983431) :
    image_resize_aspect im = { im with height_padding := 0, height_inner := 8983432 } := by
  have hs : source_ar im = fval.num (2203079 / 549755813888) := by
    unfold source_ar
    rw [hw, hh, ratio_eq 44 10979749 (by norm_num) (by norm_num) (by norm_num) (by norm_num)]
    rw [binary64_eval (((44 : Int) : ℚ) / ((10979749 : Int) : ℚ)) (-18) 4731076394511942 (2365538197255971 / 590295810358705651712)
      (by norm_num [abs_of_pos]) (by norm_num [abs_of_pos])
      (by norm_num) (by norm_num) (by norm_num [abs_lt]) (by norm_num)]
    exact binary32_eval ((2365538197255971 / 590295810358705651712)) (-18) 8812316 (2203079 / 549755813888)
      (by norm_num [abs_of_pos]) (by norm_num [abs_of_pos])
      (by norm_num) (by norm_num) (by norm_num [abs_lt]) (by norm_num)
  have hd : dest_ar im = fval.num (2203079 / 549755813888) := by
    unfold dest_ar
    rw [htw, hth, ratio_eq 36 8983431 (by norm_num) (by norm_num) (by norm_num) (by norm_num)]
    rw [binary64_eval (((36 : Int) : ℚ) / ((8983431 : Int) : ℚ)) (-18) 4731076394511942 (2365538197255971 / 590295810358705651712)
      (by norm_num [abs_of_pos]) (by norm_num [abs_of_pos])
      (by norm_num) (by norm_num) (by norm_num [abs_lt]) (by norm_num)]
    exact binary32_eval ((2365538197255971 / 590295810358705651712)) (-18) 8812316 (2203079 / 549755813888)
      (by norm_num [abs_of_pos]) (by norm_num [abs_of_pos])
      (by norm_num) (by norm_num) (by norm_num [abs_lt]) (by norm_num)
  have hge : (source_ar im).ge (dest_ar im) = true := by
    rw [hs, hd]
    exact decide_eq_true (show ((2203079 / 549755813888) : ℚ) ≥ (2203079 / 549755813888) by norm_num)
  have e1 : binary32.of_int 36 = fval.num 36 :=
    (binary32_of_int 36 (by norm_num) (by norm_num)).trans (by norm_num)
  have e2 : binary32.of_int 8983431 = fval.num 8983431 :=
    (binary32_of_int 8983431 (by norm_num) (by norm_num)).trans (by norm_num)
  have e3 : binary32.of_int 2 = fval.num 2 :=
    (binary32_of_int 2 (by norm_num) (by norm_num)).trans (by norm_num)
  have e4 : binary32.div (fval.num 36) (fval.num (2203079 / 549755813888)) = fval.num 8983432 := by
    show binary32.of_rat (36 / (2203079 / 549755813888)) = _
    exact binary32_eval (36 / (2203079 / 549755813888)) 23 8983432 8983432
      (by norm_num [abs_of_pos]) (by norm_num [abs_of_pos])
      (by norm_num) (by norm_num) (by norm_num [abs_lt]) (by norm_num)
  have e5 : binary32.sub (fval.num 8983431) (fval.num 8983432) = fval.num (-1) := by
    show (if (8983431 : ℚ) - 8983432 = 0 then fval.zero false else binary32.of_rat (8983431 - 8983432)) = _
    rw [if_neg (show ¬ ((8983431 : ℚ) - 8983432 = 0) by norm_num)]
    exact binary32_eval (8983431 - 8983432) 0 (-8388608) (-1)
      (by norm_num [abs_of_pos]) (by norm_num [abs_of_pos])
      (by norm_num) (by norm_num) (by norm_num [abs_lt]) (by norm_num)
  have e6 : binary32.div (fval.num (-1)) (fval.num 2) = fval.num (-1 / 2) := by
    show binary32.of_rat ((-1) / 2) = _
    exact binary32_eval ((-1) / 2) (-1) (-8388608) (-1 / 2)
      (by norm_num [abs_of_pos]) (by norm_num [abs_of_pos])
      (by norm_num) (by norm_num) (by norm_num [abs_lt]) (by norm_num)
  have i1 : int_of_float 8983432 = 8983432 :=
    int_of_float_floor 8983432 8983432 (by norm_num) (by norm_num) (by norm_num)
  have i2 : int_of_float (-1 / 2) = 0 :=
    by
    have h := int_of_float_neg (1 / 2)
    rw [int_of_float_floor (1 / 2) 0 (by norm_num) (by norm_num) (by norm_num)] at h
    norm_num at h ⊢
    exact h
  have e7 : (fval.num 8983432).cast_int = 8983432 := cast_int_eval _ _ i1 (by norm_num) (by norm_num)
  have e8 : (fval.num (-1 / 2)).cast_int = 0 := cast_int_eval _ _ i2 (by norm_num) (by norm_num)
  rw [image_resize_aspect_ge im hge]
  simp only [hs, htw, hth, e1, e2, e3, e4, e5, e6, e7, e8]

/-! ## The format sniffer -/

/-- C1: for a header buffer holding at least 8 bytes, the classification of
image_init is JPEG exactly for the prefix FF D8 FF, PNG exactly for the 8-byte
PNG signature, GIF exactly for GIF87a or GIF89a, BMP exactly for BM, and UNKNOWN
exactly when none of the four signatures matches. -/
theorem sniff_classification (b : Buffer) (h : 8 ≤ b.data.length) :
    (sniff (buffer_ptr b) = image_type.JPEG ↔ b.data.take 3 = [0xff, 0xd8, 0xff]) ∧
    (sniff (buffer_ptr b) = image_type.PNG ↔
      b.data.take 8 = [0x89, 'P'.toNat, 'N'.toNat, 'G'.toNat, 0x0d, 0x0a, 0x1a, 0x0a]) ∧
    (sniff (buffer_ptr b) = image_type.GIF ↔
      (b.data.take 6 = ['G'.toNat, 'I'.toNat, 'F'.toNat, '8'.toNat, '7'.toNat, 'a'.toNat] ∨
       b.data.take 6 = ['G'.toNat, 'I'.toNat, 'F'.toNat, '8'.toNat, '9'.toNat, 'a'.toNat])) ∧
    (sniff (buffer_ptr b) = image_type.BMP ↔ b.data.take 2 = ['B'.toNat, 'M'.toNat]) ∧
    (sniff (buffer_ptr b) = image_type.UNKNOWN ↔
      (b.data.take 3 ≠ [0xff, 0xd8, 0xff] ∧
       b.data.take 8 ≠ [0x89, 'P'.toNat, 'N'.toNat, 'G'.toNat, 0x0d, 0x0a, 0x1a, 0x0a] ∧
       b.data.take 6 ≠ ['G'.toNat, 'I'.toNat, 'F'.toNat, '8'.toNat, '7'.toNat, 'a'.toNat] ∧
       b.data.take 6 ≠ ['G'.toNat, 'I'.toNat, 'F'.toNat, '8'.toNat, '9'.toNat, 'a'.toNat] ∧
       b.data.take 2 ≠ ['B'.toNat, 'M'.toNat])) := by
  obtain ⟨data, uninit⟩ := b
  match data, h with
  | b0 :: b1 :: b2 :: b3 :: b4 :: b5 :: b6 :: b7 :: rest, _ =>
    simp only [sniff, buffer_ptr, List.getD_cons_zero, List.getD_cons_succ, List.take_succ_cons,
      List.take_zero, List.cons.injEq, and_true]
    norm_num
    split_ifs <;> simp_all
    omega

/-- C1, instance: the 8-byte PNG signature is classified as PNG. -/
theorem sniff_classification_witness :
    8 ≤ (Buffer.mk [0x89, 0x50, 0x4e, 0x47, 0x0d, 0x0a, 0x1a, 0x0a] (fun _ => 0)).data.length ∧
    sniff (buffer_ptr (Buffer.mk [0x89, 0x50, 0x4e, 0x47, 0x0d, 0x0a, 0x1a, 0x0a] (fun _ => 0)))
      = image_type.PNG :=
  ⟨by decide,
   (sniff_classification
      (Buffer.mk [0x89, 0x50, 0x4e, 0x47, 0x0d, 0x0a, 0x1a, 0x0a] (fun _ => 0))
      (by decide)).2.1.mpr (by decide)⟩

/-! ## The memory budget check of image_alloc -/

/-- C4: when, after the backend load, the target dimensions equal the source
dimensions, image_resize returns the loaded state with outbuf set to pixbuf and
nothing else changed: no allocation (memory_used, the heap counter and the event
log are those after the load, so no New, no Safefree and no strategy event),
pixbuf kept, the four padding fields kept, whatever keep_aspect and resize_type
are. -/
theorem image_resize_same_size (B : Backend) (s s1 : State)
    (hload : image_resize_load B s = Result.ok s1)
    (hw : s1.im.target_width = s1.im.width) (hh : s1.im.target_height = s1.im.height) :
    ∃ s2, image_resize B s = Result.ok s2 ∧
      s2.im = { s1.im with outbuf := s1.im.pixbuf } ∧
      s2.im.outbuf = s1.im.pixbuf ∧ s2.im.pixbuf = s1.im.pixbuf ∧
      s2.im.memory_used = s1.im.memory_used ∧
      s2.next = s1.next ∧ s2.log = s1.log ∧
      s2.im.width_padding = s1.im.width_padding ∧ s2.im.width_inner = s1.im.width_inner ∧
      s2.im.height_padding = s1.im.height_padding ∧
      s2.im.height_inner = s1.im.height_inner := by
  refine ⟨{ s1 with im := { s1.im with outbuf := s1.im.pixbuf } }, ?_, rfl, rfl, rfl, rfl, rfl,
    rfl, rfl, rfl, rfl, rfl⟩
  unfold image_resize
  rw [hload]
  simp only [image_resize_loaded, hw, hh, and_self, ↓reduceIte]

/-- C4, instance: a 100 x 50 BMP asked for 100 x 50 with keep_aspect set. -/
theorem image_resize_same_size_witness :
    ∃ s2, image_resize sample_backend (sample_bmp 100 50 100 50 1 0) = Result.ok s2 ∧
      s2.im.outbuf = some 1 ∧ s2.im.pixbuf = some 1 ∧ s2.im.memory_used = 21024 ∧
      s2.log = [Event.Newz_Buffer 0, Event.buffer_init 0 1024, Event.New 1 20000] := by
  obtain ⟨s2, h, -, hout, hpix, hused, -, hlog, -⟩ :=
    image_resize_same_size sample_backend (sample_bmp 100 50 100 50 1 0)
      (image_resize_load sample_backend (sample_bmp 100 50 100 50 1 0)).state rfl rfl rfl
  exact ⟨s2, h, hout.trans rfl, hpix.trans rfl, hused.trans (by decide), hlog.trans (by decide)⟩

/-- C5 as stated fails in the float arithmetic of the code, for positive
dimensions with equal exact ratios.  A 44 x 10979749 source and a 36 x 8983431
target: the block stores height_inner = 8983432, above target_height, so that
height_padding * 2 + height_inner > target_height.  A 12 x 11270702 source and
an 18 x 16906053 target: the block stores height_padding = -1. -/
theorem image_resize_padding_out_of_bounds :
    ((sample_bmp 44 10979749 36 8983431 1 0).im.keep_aspect ≠ 0 ∧
      ((44 : ℚ) / 10979749 ≥ (36 : ℚ) / 8983431) ∧
      (image_resize_padding (sample_bmp 44 10979749 36 8983431 1 0) 0).im.height_inner
        = 8983432 ∧
      (image_resize_padding (sample_bmp 44 10979749 36 8983431 1 0) 0).im.height_padding = 0 ∧
      ¬ ((image_resize_padding (sample_bmp 44 10979749 36 8983431 1 0) 0).im.height_padding * 2
          + (image_resize_padding (sample_bmp 44 10979749 36 8983431 1 0) 0).im.height_inner
        ≤ (sample_bmp 44 10979749 36 8983431 1 0).im.target_height)) ∧
    ((sample_bmp 12 11270702 18 16906053 1 0).im.keep_aspect ≠ 0 ∧
      ((12 : ℚ) / 11270702 ≥ (18 : ℚ) / 16906053) ∧
      (image_resize_padding (sample_bmp 12 11270702 18 16906053 1 0) 0).im.height_padding = -1 ∧
      ¬ (0 ≤ (image_resize_padding (sample_bmp 12 11270702 18 16906053 1 0) 0).im.height_padding))
    := by
  have e1 : (image_resize_padding (sample_bmp 44 10979749 36 8983431 1 0) 0).im
      = { (sample_bmp 44 10979749 36 8983431 1 0).im with
          height_padding := 0, height_inner := 8983432 } := by
    rw [image_resize_padding_im _ _ (by decide), aspect_eval_44_36 _ rfl rfl rfl rfl]
  have e2 : (image_resize_padding (sample_bmp 12 11270702 18 16906053 1 0) 0).im
      = { (sample_bmp 12 11270702 18 16906053 1 0).im with
          height_padding := -1, height_inner := 16906054 } := by
    rw [image_resize_padding_im _ _ (by decide), aspect_eval_12_18 _ rfl rfl rfl rfl]
  rw [e1, e2]
  exact ⟨⟨by decide, by norm_num, rfl, rfl, by decide⟩, ⟨by decide, by norm_num, rfl, by decide⟩⟩

/-- C5 (amended): under keep_aspect, for positive dimensions below 2^20 and the
four fields non-negative on entry: when the float comparison
source_ar >= dest_ar of the code holds (in particular when sourceAR >= destAR
exactly) the block gives height_padding * 2 + height_inner <= target_height,
otherwise it gives width_padding * 2 + width_inner <= target_width, and the four
fields are non-negative afterwards; when the four fields are 0 on entry (as
image_init leaves them) both inequalities hold, whichever axis is padded. -/
theorem image_resize_padding_bounds (s : State) (size : Int)
    (hk : s.im.keep_aspect ≠ 0)
    (hw0 : 0 < s.im.width) (hw1 : s.im.width < 1048576)
    (hh0 : 0 < s.im.height) (hh1 : s.im.height < 1048576)
    (htw0 : 0 < s.im.target_width) (htw1 : s.im.target_width < 1048576)
    (hth0 : 0 < s.im.target_height) (hth1 : s.im.target_height < 1048576)
    (h1 : 0 ≤ s.im.width_padding) (h2 : 0 ≤ s.im.width_inner)
    (h3 : 0 ≤ s.im.height_padding) (h4 : 0 ≤ s.im.height_inner) :
    ((source_ar s.im).ge (dest_ar s.im) = true →
      (image_resize_padding s size).im.height_padding * 2
        + (image_resize_padding s size).im.height_inner ≤ s.im.target_height) ∧
    (¬ (source_ar s.im).ge (dest_ar s.im) = true →
      (image_resize_padding s size).im.width_padding * 2
        + (image_resize_padding s size).im.width_inner ≤ s.im.target_width) ∧
    0 ≤ (image_resize_padding s size).im.width_padding ∧
    0 ≤ (image_resize_padding s size).im.width_inner ∧
    0 ≤ (image_resize_padding s size).im.height_padding ∧
    0 ≤ (image_resize_padding s size).im.height_inner ∧
    (s.im.width_padding = 0 → s.im.width_inner = 0 →
      s.im.height_padding = 0 → s.im.height_inner = 0 →
      (image_resize_padding s size).im.height_padding * 2
          + (image_resize_padding s size).im.height_inner ≤ s.im.target_height ∧
        (image_resize_padding s size).im.width_padding * 2
          + (image_resize_padding s size).im.width_inner ≤ s.im.target_width) ∧
    (s.im.target_width * s.im.height ≤ s.im.width * s.im.target_height →
      (image_resize_padding s size).im.height_padding * 2
        + (image_resize_padding s size).im.height_inner ≤ s.im.target_height) := by
  rw [image_resize_padding_im s size hk]
  by_cases hge : (source_ar s.im).ge (dest_ar s.im) = true
  · obtain ⟨X, G, e, hX0, hX, hx, hG⟩ :=
      aspect_height s.im hw0 hw1 hh0 hh1 htw0 htw1 hth0 hth1 hge
    rw [e]
    rw [abs_le] at hX hG
    have hG0 : -1 < G := by linarith [hG.1, hX.2]
    obtain ⟨g0, g1, -⟩ := int_of_float_bounds G hG0
    obtain ⟨x0, x1, -⟩ := int_of_float_bounds X (by linarith)
    rw [max_eq_left hX0] at x1
    have key : int_of_float G * 2 + int_of_float X ≤ s.im.target_height := by
      have hlt : ((int_of_float G * 2 + int_of_float X : Int) : ℚ)
          < ((s.im.target_height + 1 : Int) : ℚ) := by
        push_cast
        rcases le_total 0 G with hg | hg
        · rw [max_eq_left hg] at g1
          linarith [hG.2]
        · rw [max_eq_right hg] at g1
          linarith [hX.2]
      have : int_of_float G * 2 + int_of_float X < s.im.target_height + 1 := by
        exact_mod_cast hlt
      omega
    refine ⟨fun _ => key, fun hc => absurd hge hc, h1, h2, g0, x0, ?_, fun _ => key⟩
    intro z1 z2 _ _
    refine ⟨key, ?_⟩
    show s.im.width_padding * 2 + s.im.width_inner ≤ s.im.target_width
    rw [z1, z2]
    omega
  · obtain ⟨Y, E, e, hY0, hY, hy, hE⟩ :=
      aspect_width s.im hw0 hw1 hh0 hh1 htw0 htw1 hth0 hth1 hge
    rw [e]
    rw [abs_le] at hY hE
    have hE0 : -1 < E := by linarith [hE.1, hY.2]
    obtain ⟨g0, g1, -⟩ := int_of_float_bounds E hE0
    obtain ⟨x0, x1, -⟩ := int_of_float_bounds Y (by linarith)
    rw [max_eq_left hY0] at x1
    have key : int_of_float E * 2 + int_of_float Y ≤ s.im.target_width := by
      have hlt : ((int_of_float E * 2 + int_of_float Y : Int) : ℚ)
          < ((s.im.target_width + 1 : Int) : ℚ) := by
        push_cast
        rcases le_total 0 E with hg | hg
        · rw [max_eq_left hg] at g1
          linarith [hE.2]
        · rw [max_eq_right hg] at g1
          linarith [hY.2]
      have : int_of_float E * 2 + int_of_float Y < s.im.target_width + 1 := by
        exact_mod_cast hlt
      omega
    refine ⟨fun hc => absurd hc hge, fun _ => key, g0, x0, h3, h4, ?_,
      fun hex => absurd
        (aspect_branch_exact s.im hw0 hw1 hh0 hh1 htw0 htw1 hth0 hth1 hex) hge⟩
    intro _ _ z3 z4
    refine ⟨?_, key⟩
    show s.im.height_padding * 2 + s.im.height_inner ≤ s.im.target_height
    rw [z3, z4]
    omega

/-- C5, instance: the 100 x 50 source with the 50 x 50 target. -/
theorem image_resize_padding_bounds_witness :
    (image_resize_padding (sample_bmp 100 50 50 50 1 0) 10000).im.height_padding * 2
      + (image_resize_padding (sample_bmp 100 50 50 50 1 0) 10000).im.height_inner
      ≤ (sample_bmp 100 50 50 50 1 0).im.target_height ∧
    0 ≤ (image_resize_padding (sample_bmp 100 50 50 50 1 0) 10000).im.height_padding ∧
    0 ≤ (image_resize_padding (sample_bmp 100 50 50 50 1 0) 10000).im.height_inner :=
  have h := image_resize_padding_bounds (sample_bmp 100 50 50 50 1 0) 10000
    (by decide) (by decide) (by decide) (by decide) (by decide) (by decide) (by decide)
    (by decide) (by decide) (by decide) (by decide) (by decide) (by decide)
  ⟨(h.2.2.2.2.2.2.1 rfl rfl rfl rfl).1, h.2.2.2.2.1, h.2.2.2.2.2.1⟩

/-- C6 as stated fails: for a 100 x 50 source and a 50 x 25 target under
keep_aspect (equal ratios) width_padding and height_padding are both 0 after the
block, so it is not the case that exactly one of them is nonzero. -/
theorem image_resize_padding_both_zero :
    (sample_bmp 100 50 50 25 1 0).im.keep_aspect ≠ 0 ∧
    (image_resize_padding (sample_bmp 100 50 50 25 1 0) 5000).im.width_padding = 0 ∧
    (image_resize_padding (sample_bmp 100 50 50 25 1 0) 5000).im.height_padding = 0 ∧
    ¬ (((image_resize_padding (sample_bmp 100 50 50 25 1 0) 5000).im.width_padding ≠ 0 ∧
        (image_resize_padding (sample_bmp 100 50 50 25 1 0) 5000).im.height_padding = 0) ∨
       ((image_resize_padding (sample_bmp 100 50 50 25 1 0) 5000).im.width_padding = 0 ∧
        (image_resize_padding (sample_bmp 100 50 50 25 1 0) 5000).im.height_padding ≠ 0)) := by
  obtain ⟨a, b, -⟩ := aspect_equal_ratio (sample_bmp 100 50 50 25 1 0).im
    (by decide) (by decide) (by decide) (by decide) (by decide) (by decide) (by decide)
    (by decide) (by decide)
  rw [image_resize_padding_im _ _ (by decide), a, b]
  exact ⟨by decide, rfl, rfl, by decide⟩

/-- C6 (amended): under keep_aspect, for positive dimensions below 2^20 and a
context whose width_padding and height_padding are 0 on entry (as image_init
leaves them): the two are never both nonzero after the block; exactly one is
nonzero whenever the exact ratios leave a gap of at least 3 pixels on the padded
axis: height_padding alone when
target_height - target_width * height / width >= 3, width_padding alone when
target_width - target_height * width / height >= 3; and both are 0 when the
exact ratios are equal. -/
theorem image_resize_padding_exactly_one (s : State) (size : Int)
    (hk : s.im.keep_aspect ≠ 0)
    (hw0 : 0 < s.im.width) (hw1 : s.im.width < 1048576)
    (hh0 : 0 < s.im.height) (hh1 : s.im.height < 1048576)
    (htw0 : 0 < s.im.target_width) (htw1 : s.im.target_width < 1048576)
    (hth0 : 0 < s.im.target_height) (hth1 : s.im.target_height < 1048576)
    (h1 : s.im.width_padding = 0) (h3 : s.im.height_padding = 0) :
    ¬ ((image_resize_padding s size).im.width_padding ≠ 0 ∧
        (image_resize_padding s size).im.height_padding ≠ 0) ∧
    (3 * s.im.width ≤ s.im.width * s.im.target_height - s.im.target_width * s.im.height →
      (image_resize_padding s size).im.height_padding ≠ 0 ∧
      (image_resize_padding s size).im.width_padding = 0) ∧
    (3 * s.im.height ≤ s.im.height * s.im.target_width - s.im.target_height * s.im.width →
      (image_resize_padding s size).im.width_padding ≠ 0 ∧
      (image_resize_padding s size).im.height_padding = 0) ∧
    (s.im.width * s.im.target_height = s.im.height * s.im.target_width →
      (image_resize_padding s size).im.width_padding = 0 ∧
      (image_resize_padding s size).im.height_padding = 0) := by
  have hW : (0 : ℚ) < (s.im.width : ℚ) := by exact_mod_cast hw0
  have hH : (0 : ℚ) < (s.im.height : ℚ) := by exact_mod_cast hh0
  have hρ : (0 : ℚ) < (s.im.width : ℚ) / (s.im.height : ℚ) := div_pos hW hH
  rw [image_resize_padding_im s size hk]
  refine ⟨?_, ?_, ?_, ?_⟩
  · by_cases hge : (source_ar s.im).ge (dest_ar s.im) = true
    · rw [image_resize_aspect_ge s.im hge]
      exact fun h => h.1 h1
    · rw [image_resize_aspect_lt s.im hge]
      exact fun h => h.2 h3
  · intro hgap
    have hge : (source_ar s.im).ge (dest_ar s.im) = true :=
      aspect_branch_ge s.im hw0 hw1 hh0 hh1 htw0 htw1 hth0 hth1 (by nlinarith)
    obtain ⟨X, G, e, hX0, hX, -, hG⟩ :=
      aspect_height s.im hw0 hw1 hh0 hh1 htw0 htw1 hth0 hth1 hge
    rw [e]
    rw [abs_le] at hX hG
    have hq : (s.im.target_width : ℚ) * (s.im.height : ℚ)
        ≤ ((s.im.target_height : ℚ) - 3) * (s.im.width : ℚ) := by
      have : s.im.target_width * s.im.height ≤ (s.im.target_height - 3) * s.im.width := by
        linarith
      exact_mod_cast this
    have hx : (s.im.target_width : ℚ) / ((s.im.width : ℚ) / (s.im.height : ℚ))
        ≤ (s.im.target_height : ℚ) - 3 := by
      rw [div_div_eq_mul_div, div_le_iff₀ hW]
      exact hq
    have hG1 : 1 ≤ G := by linarith [hG.1, hX.2]
    refine ⟨?_, h1⟩
    show int_of_float G ≠ 0
    rw [int_of_float_of_nonneg G (by linarith)]
    have : 1 ≤ ⌊G⌋ := Int.le_floor.mpr (by exact_mod_cast hG1)
    omega
  · intro hgap
    have hlt : ¬ (source_ar s.im).ge (dest_ar s.im) = true :=
      aspect_branch_lt s.im hw0 hw1 hh0 hh1 htw0 htw1 hth0 hth1 (by nlinarith)
    obtain ⟨Y, E, e, hY0, hY, -, hE⟩ :=
      aspect_width s.im hw0 hw1 hh0 hh1 htw0 htw1 hth0 hth1 hlt
    rw [e]
    rw [abs_le] at hY hE
    have hq : (s.im.target_height : ℚ) * (s.im.width : ℚ)
        ≤ ((s.im.target_width : ℚ) - 3) * (s.im.height : ℚ) := by
      have : s.im.target_height * s.im.width ≤ (s.im.target_width - 3) * s.im.height := by
        linarith
      exact_mod_cast this
    have hy : (s.im.target_height : ℚ) * ((s.im.width : ℚ) / (s.im.height : ℚ))
        ≤ (s.im.target_width : ℚ) - 3 := by
      rw [← mul_div_assoc, div_le_iff₀ hH]
      exact hq
    have hE1 : 1 ≤ E := by linarith [hE.1, hY.2]
    refine ⟨?_, h3⟩
    show int_of_float E ≠ 0
    rw [int_of_float_of_nonneg E (by linarith)]
    have : 1 ≤ ⌊E⌋ := Int.le_floor.mpr (by exact_mod_cast hE1)
    omega
  · intro heq
    obtain ⟨a, b, -⟩ := aspect_equal_ratio s.im hw0 hw1 hh0 hh1 htw0 htw1 hth0 hth1 heq
    exact ⟨b.trans h1, a⟩

/-- C6, instance: the 100 x 50 source with the 50 x 50 target pads the height
axis only. -/
theorem image_resize_padding_exactly_one_witness :
    (image_resize_padding (sample_bmp 100 50 50 50 1 0) 10000).im.height_padding ≠ 0 ∧
    (image_resize_padding (sample_bmp 100 50 50 50 1 0) 10000).im.width_padding = 0 :=
  (image_resize_padding_exactly_one (sample_bmp 100 50 50 50 1 0) 10000
    (by decide) (by decide) (by decide) (by decide) (by decide) (by decide) (by decide)
    (by decide) (by decide) rfl rfl).2.1 (by decide)

/-! ## image_finish -/

/-- C7: the stated property is what the release discipline of image.c asks for,
and image_finish does not provide it.  The other release sites reset the pointer
they release (image_init, lines 89-91; image_resize, lines 248-249);
image_finish releases buf, pixbuf and outbuf and leaves the three pointers as
they were.  After a completed resize of a 100 x 50 BMP to 50 x 50 (header buffer
at address 0, output buffer at address 2), one image_finish releases each buffer
once, and a second image_finish releases both of them again. -/
theorem image_finish_twice_frees_again :
    (image_resize sample_backend (sample_bmp 100 50 50 50 0 0)).state.im.outbuf = some 2 ∧
    (image_resize sample_backend (sample_bmp 100 50 50 50 0 0)).state.im.buf = some 0 ∧
    List.count (Event.Safefree 2)
      (image_finish sample_backend
        (image_resize sample_backend (sample_bmp 100 50 50 50 0 0)).state).log = 1 ∧
    List.count (Event.Safefree 2)
      (image_finish sample_backend (image_finish sample_backend
        (image_resize sample_backend (sample_bmp 100 50 50 50 0 0)).state)).log = 2 ∧
    List.count (Event.Safefree_Buffer 0)
      (image_finish sample_backend (image_finish sample_backend
        (image_resize sample_backend (sample_bmp 100 50 50 50 0 0)).state)).log = 2 := by
  decide

/-- C8: one image_finish appends to the log exactly these releases, and sets
memory_used to 0: the header buffer (buffer_free, then Safefree) once iff buf is
non-null; pixbuf once iff it is non-null and differs from outbuf; outbuf once
iff it is non-null.  Hence, for every address, the number of Safefree calls on
it is 1 when outbuf points to it, else 1 when pixbuf points to it, else 0: no
buffer is released twice, and a buffer shared by pixbuf and outbuf is released
once. -/
theorem image_finish_releases (B : Backend) (s : State) :
    (image_finish B s).im.memory_used = 0 ∧
    ∃ ev, (image_finish B s).log = s.log ++ ev ∧
      ∀ a : Nat,
        List.count (Event.buffer_free a) ev = (if s.im.buf = some a then 1 else 0) ∧
        List.count (Event.Safefree_Buffer a) ev = (if s.im.buf = some a then 1 else 0) ∧
        List.count (Event.Safefree a) ev
          = (if s.im.pixbuf = some a ∧ s.im.pixbuf ≠ s.im.outbuf then 1 else 0)
            + (if s.im.outbuf = some a then 1 else 0) ∧
        List.count (Event.Safefree a) ev
          = (if s.im.outbuf = some a then 1 else if s.im.pixbuf = some a then 1 else 0) ∧
        List.count (Event.Safefree a) ev ≤ 1 := by
  refine ⟨rfl, image_finish_events s.im.buf s.im.pixbuf s.im.outbuf, image_finish_log B s, ?_⟩
  intro a
  unfold image_finish_events Safefree
  cases hb : s.im.buf <;> cases hp : s.im.pixbuf <;> cases ho : s.im.outbuf <;>
    simp [List.count_cons, List.count_append] <;> split_ifs <;>
    simp_all [List.count_cons]

/-! ## The memory ceiling -/

/-- C9 as stated fails: image_init charges the 1024-byte header buffer with
memory_limit reset to 0, so once the caller stores a limit of 512 in the context
that image_init returned, memory_limit is nonzero and memory_used exceeds it,
before any reservation is attempted. -/
theorem memory_used_exceeds_limit_after_init :
    ∃ s, image_init sample_backend
          (Source.data ['B'.toNat, 'M'.toNat, 0, 0, 0, 0, 0, 0]) (sample_state sample_image)
        = Result.ok s ∧
      s.im.memory_used = 1024 ∧
      ({ s.im with memory_limit := 512 } : image).memory_limit ≠ 0 ∧
      ¬ (({ s.im with memory_limit := 512 } : image).memory_used
          ≤ ({ s.im with memory_limit := 512 } : image).memory_limit) :=
  ⟨_, rfl, by decide, by decide, by decide⟩

/-- C9 (amended): for a context with a nonzero memory_limit, memory_used is at
most memory_limit after every successful reservation: after image_alloc returns,
and after the target reservation of image_resize has passed, that is, the budget
check did not croak and New returned (whether the resize then completes or
croaks on the resize type), for all int dimensions.  The function image_init
itself returns with memory_used = 1024 and memory_limit = 0: the header buffer
is charged without a check. -/
theorem memory_used_within_limit (B : Backend) (s : State) (hlim : s.im.memory_limit ≠ 0) :
    (∀ width height s1, image_alloc B.pix_size s width height = Result.ok s1 →
      s1.im.memory_used ≤ s1.im.memory_limit ∧ s1.im.memory_limit = s.im.memory_limit) ∧
    (¬ (s.im.width = s.im.target_width ∧ s.im.height = s.im.target_height) →
      (∀ n st, image_resize_loaded B s ≠ Result.croak (Error.memory_limit n) st) →
      (∀ st, image_resize_loaded B s ≠ Result.croak Error.New_failed st) →
      (image_resize_loaded B s).state.im.memory_used
          ≤ (image_resize_loaded B s).state.im.memory_limit ∧
        (image_resize_loaded B s).state.im.memory_limit = s.im.memory_limit) ∧
    (∀ src s0 s1, image_init B src s0 = Result.ok s1 →
      s1.im.memory_used = 1024 ∧ s1.im.memory_limit = 0) := by
  refine ⟨?_, ?_, ?_⟩
  · intro width height s1 h
    dsimp only [image_alloc] at h
    split at h
    · cases h
    · rename_i hc
      split at h
      · cases h
      · cases h
        dsimp only
        have := not_and.mp hc hlim
        exact ⟨not_lt.mp this, rfl⟩
  · intro hne hnc hnf
    obtain ⟨hp1, hp2⟩ := image_resize_padding_memory (image_resize_reserved B s)
      (pix_bytes B.pix_size s.im.target_width s.im.target_height)
    rcases image_resize_loaded_cases B s with
      ⟨h, -⟩ | ⟨-, -, h⟩ | ⟨-, -, -, h⟩ | ⟨-, hc, -, m, -, h⟩ | ⟨-, hc, -, -, h⟩
    · exact absurd h hne
    · exact absurd h (hnc _ _)
    · exact absurd h (hnf _)
    · have hle := not_lt.mp (not_and.mp hc hlim)
      rw [h]
      dsimp only [Result.state]
      rw [hp1, hp2]
      exact ⟨hle, rfl⟩
    · have hle := not_lt.mp (not_and.mp hc hlim)
      rw [h]
      dsimp only [Result.state]
      rw [hp1, hp2]
      exact ⟨hle, rfl⟩
  · intro src s0 s1 h
    unfold image_init at h
    cases src with
    | data_not_ref sv => cases h
    | file name fh =>
      dsimp only at h
      split at h
      · cases h
      · exact image_init_read_header_memory B _ s1 h
    | data sv =>
      exact image_init_read_header_memory B _ s1 h

/-- C9, instance: a 100 x 50 BMP under a limit of 100000 bytes. -/
theorem memory_used_within_limit_witness :
    (sample_bmp 100 50 50 50 0 100000).im.memory_limit ≠ 0 ∧
    (image_alloc sample_backend.pix_size (sample_bmp 100 50 50 50 0 100000) 100 50).state.im.memory_used
      ≤ (image_alloc sample_backend.pix_size
          (sample_bmp 100 50 50 50 0 100000) 100 50).state.im.memory_limit :=
  ⟨by decide,
    ((memory_used_within_limit sample_backend (sample_bmp 100 50 50 50 0 100000)
      (by decide)).1 100 50 _ rfl).1⟩

/-! ## image_init: unknown type, header fill -/

/-- The header reader switch returns at once for the UNKNOWN type, whatever
the header readers are. -/
theorem image_init_read_header_unknown (B : Backend) (s : State)
    (h : s.im.type = image_type.UNKNOWN) :
    image_init_read_header B s = Result.ok s := by
  unfold image_init_read_header
  split
  · rfl
  · rename_i hne
    exact absurd h hne

/-- C11 as stated fails: for the 8-byte blob "hello wo", which matches none of
the four signatures, image_init returns normally (return 1) with the type left
UNKNOWN. -/
theorem image_init_unknown_reports_success :
    ∃ s, image_init sample_backend
          (Source.data [104, 101, 108, 108, 111, 32, 119, 111]) (sample_state sample_image)
        = Result.ok s ∧
      s.im.type = image_type.UNKNOWN ∧
      sniff (buffer_ptr s.hdr) = image_type.UNKNOWN :=
  ⟨_, rfl, by decide, by decide⟩

/-- C11 (amended): when the buffered header matches none of the four
signatures (the classification is UNKNOWN), for a blob as for a file whose
header fill succeeded, image_init runs no header reader (its result is the same
whatever the header readers are), leaves the type UNKNOWN and width and height
0, and returns normally: image.c raises no error for an unrecognised format. -/
theorem image_init_unknown (B : Backend) (s : State) :
    (∀ sv, sniff (buffer_ptr ⟨sv.take (min sv.length 1024), s.hdr.uninit⟩)
        = image_type.UNKNOWN →
      ∃ s1, image_init B (Source.data sv) s = Result.ok s1 ∧
        (∀ r, image_init { B with read_header := r } (Source.data sv) s = Result.ok s1) ∧
        s1.im.type = image_type.UNKNOWN ∧ s1.im.width = 0 ∧ s1.im.height = 0) ∧
    (∀ name fh bytes, B.check_buf fh 8 1024 = some bytes →
      sniff (buffer_ptr ⟨bytes, s.hdr.uninit⟩) = image_type.UNKNOWN →
      ∃ s1, image_init B (Source.file name fh) s = Result.ok s1 ∧
        (∀ r, image_init { B with read_header := r } (Source.file name fh) s
          = Result.ok s1) ∧
        s1.im.type = image_type.UNKNOWN ∧ s1.im.width = 0 ∧ s1.im.height = 0) := by
  constructor
  · intro sv hU
    have hU2 : sniff (buffer_ptr ⟨[] ++ sv.take (min sv.length 1024), s.hdr.uninit⟩)
        = image_type.UNKNOWN := by
      rw [List.nil_append]
      exact hU
    refine ⟨_, image_init_read_header_unknown B _ hU2,
      fun r => image_init_read_header_unknown { B with read_header := r } _ hU2, hU2, rfl, rfl⟩
  · intro name fh bytes hb hU
    have e : ∀ B2 : Backend, B2.check_buf fh 8 1024 = some bytes →
        image_init B2 (Source.file name fh) s
          = image_init_read_header B2
              { im := { image_init_fields { s.im with fh := some fh } s.next with
                  type := sniff (buffer_ptr ⟨bytes, s.hdr.uninit⟩) }
                hdr := ⟨bytes, s.hdr.uninit⟩
                next := s.next + 1
                log := s.log ++ [Event.Newz_Buffer s.next, Event.buffer_init s.next 1024] } := by
      intro B2 h2
      dsimp only [image_init]
      rw [h2]
    refine ⟨_, (e B hb).trans (image_init_read_header_unknown B _ hU),
      fun r => (e { B with read_header := r } hb).trans
        (image_init_read_header_unknown { B with read_header := r } _ hU), hU, rfl, rfl⟩

/-- C11, instance: the blob "hello wo" with the sample backend. -/
theorem image_init_unknown_witness :
    ∃ s1, image_init sample_backend
          (Source.data [104, 101, 108, 108, 111, 32, 119, 111]) (sample_state sample_image)
        = Result.ok s1 ∧
      s1.im.type = image_type.UNKNOWN ∧ s1.im.width = 0 ∧ s1.im.height = 0 := by
  obtain ⟨s1, h, -, ht, hw, hh⟩ :=
    (image_init_unknown sample_backend (sample_state sample_image)).1
      [104, 101, 108, 108, 111, 32, 119, 111] (by decide)
  exact ⟨s1, h, ht, hw, hh⟩

/-- The header reader switch leaves the header buffer and the blob cursor
alone, whether it returns or croaks. -/
theorem image_init_read_header_frame (B : Backend) (s : State) :
    (image_init_read_header B s).state.hdr = s.hdr ∧
    (image_init_read_header B s).state.im.sv_offset = s.im.sv_offset ∧
    (image_init_read_header B s).state.im.type = s.im.type := by
  unfold image_init_read_header
  split
  · exact ⟨rfl, rfl, rfl⟩
  · split <;> exact ⟨rfl, rfl, rfl⟩

/-- Every index the classification reads is below 8. -/
theorem sniff_reads_lt (bptr : Nat → Nat) : ∀ i ∈ sniff_reads bptr, i < 8 := by
  intro i hi
  unfold sniff_reads at hi
  simp only [chain_reads] at hi
  split_ifs at hi <;> simp at hi <;> omega

/-- C12, at a failing input: the 2-byte blob "BM" passes the header fill of
image_init although it supplies fewer than 8 bytes: only 2 bytes are buffered, no
header-read error is raised, and image_init goes on to classify the buffer as
BMP and to run the BMP header reader. -/
theorem image_init_short_blob_accepted :
    ∃ s, image_init sample_backend (Source.data ['B'.toNat, 'M'.toNat])
          (sample_state sample_image) = Result.ok s ∧
      s.hdr.data.length = 2 ∧ s.im.sv_offset = 2 ∧
      s.im.type = image_type.BMP ∧ s.im.width = 100 :=
  ⟨_, rfl, by decide, by decide, by decide, by decide⟩

/-- C17: for a blob of length n, whether image_init returns or a header reader
croaks, the header buffer holds exactly the first min(n, 1024) bytes of the
blob and sv_offset is min(n, 1024); so the buffer holds at most 1024 bytes and
the blob is the buffered window followed by the bytes from sv_offset on. -/
theorem image_init_blob_window (B : Backend) (sv : List Nat) (s : State) :
    (image_init B (Source.data sv) s).state.hdr.data = sv.take (min sv.length 1024) ∧
    (image_init B (Source.data sv) s).state.im.sv_offset = ((min sv.length 1024 : Nat) : Int) ∧
    (image_init B (Source.data sv) s).state.hdr.data.length = min sv.length 1024 ∧
    (image_init B (Source.data sv) s).state.hdr.data.length ≤ 1024 ∧
    (image_init B (Source.data sv) s).state.hdr.data ++ sv.drop (min sv.length 1024) = sv := by
  have e : image_init B (Source.data sv) s
      = image_init_read_header B
          { im := { image_init_fields { s.im with fh := none, sv_data := sv } s.next with
              sv_offset := ((min sv.length 1024 : Nat) : Int)
              type := sniff (buffer_ptr ⟨[] ++ sv.take (min sv.length 1024), s.hdr.uninit⟩) }
            hdr := ⟨[] ++ sv.take (min sv.length 1024), s.hdr.uninit⟩
            next := s.next + 1
            log := s.log ++ [Event.Newz_Buffer s.next, Event.buffer_init s.next 1024] } := rfl
  obtain ⟨h1, h2, -⟩ := image_init_read_header_frame B
    { im := { image_init_fields { s.im with fh := none, sv_data := sv } s.next with
        sv_offset := ((min sv.length 1024 : Nat) : Int)
        type := sniff (buffer_ptr ⟨[] ++ sv.take (min sv.length 1024), s.hdr.uninit⟩) }
      hdr := ⟨[] ++ sv.take (min sv.length 1024), s.hdr.uninit⟩
      next := s.next + 1
      log := s.log ++ [Event.Newz_Buffer s.next, Event.buffer_init s.next 1024] }
  rw [e, h1, h2]
  dsimp only
  rw [List.nil_append]
  refine ⟨rfl, rfl, ?_, ?_, List.take_append_drop _ _⟩
  · rw [List.length_take]
    omega
  · rw [List.length_take]
    omega

/-- C19, at a failing input: the empty blob passes the header fill of image_init
with 0 bytes in the header buffer, and the classification still reads bptr[0]:
an index that is not below the number of buffered bytes.  The type then depends
on what the unwritten storage holds: UNKNOWN over zeros, BMP over the bytes
"BM". -/
theorem image_init_empty_blob_reads_unread_bytes :
    (∃ s, image_init sample_backend (Source.data []) (sample_state sample_image)
        = Result.ok s ∧
      s.hdr.data.length = 0 ∧
      0 ∈ sniff_reads (buffer_ptr s.hdr) ∧
      ¬ (∀ i ∈ sniff_reads (buffer_ptr s.hdr), i < s.hdr.data.length) ∧
      s.im.type = image_type.UNKNOWN) ∧
    (∃ s, image_init sample_backend (Source.data [])
          { sample_state sample_image with
            hdr := ⟨[], fun i => if i = 0 then 'B'.toNat else 'M'.toNat⟩ }
        = Result.ok s ∧
      s.hdr.data.length = 0 ∧
      sniff_reads (buffer_ptr s.hdr) = [0, 1] ∧
      s.im.type = image_type.BMP) := by
  refine ⟨⟨_, rfl, by decide, by decide, ?_, by decide⟩, ⟨_, rfl, by decide, by decide, by decide⟩⟩
  intro h
  exact absurd (h 0 (by decide)) (by decide)

/-- The classification depends on the bytes it reads only. -/
theorem sniff_congr_reads (b1 b2 : Nat → Nat) (h : ∀ i ∈ sniff_reads b1, b1 i = b2 i) :
    sniff b1 = sniff b2 := by
  have h0 : b1 0 = b2 0 := h 0 (by simp [sniff_reads])
  unfold sniff_reads at h
  simp only [chain_reads, List.mem_cons, List.mem_singleton, List.not_mem_nil, or_false] at h
  unfold sniff
  rw [← h0]
  by_cases c1 : b1 0 = 0xff
  · rw [if_pos c1] at h
    rw [if_pos c1, if_pos c1]
    have h1 : b1 1 = b2 1 := h 1 (by simp)
    rw [← h1]
    by_cases d1 : b1 1 = 0xd8
    · have h2 : b1 2 = b2 2 := h 2 (by simp [d1])
      rw [← h2]
    · simp [d1]
  · rw [if_neg c1] at h
    rw [if_neg c1, if_neg c1]
    by_cases c2 : b1 0 = 0x89
    · rw [if_pos c2] at h
      rw [if_pos c2, if_pos c2]
      have h1 : b1 1 = b2 1 := h 1 (by simp)
      rw [← h1]
      by_cases d1 : b1 1 = 80
      · have h2 : b1 2 = b2 2 := h 2 (by simp [d1])
        rw [← h2]
        by_cases d2 : b1 2 = 78
        · have h3 : b1 3 = b2 3 := h 3 (by simp [d1, d2])
          rw [← h3]
          by_cases d3 : b1 3 = 71
          · have h4 : b1 4 = b2 4 := h 4 (by simp [d1, d2, d3])
            rw [← h4]
            by_cases d4 : b1 4 = 0x0d
            · have h5 : b1 5 = b2 5 := h 5 (by simp [d1, d2, d3, d4])
              rw [← h5]
              by_cases d5 : b1 5 = 0x0a
              · have h6 : b1 6 = b2 6 := h 6 (by simp [d1, d2, d3, d4, d5])
                rw [← h6]
                by_cases d6 : b1 6 = 0x1a
                · have h7 : b1 7 = b2 7 := h 7 (by simp [d1, d2, d3, d4, d5, d6])
                  rw [← h7]
                · simp [d6]
              · simp [d5]
            · simp [d4]
          · simp [d3]
        · simp [d2]
      · simp [d1]
    · rw [if_neg c2] at h
      rw [if_neg c2, if_neg c2]
      by_cases c3 : b1 0 = 'G'.toNat
      · rw [if_pos c3] at h
        rw [if_pos c3, if_pos c3]
        have h1 : b1 1 = b2 1 := h 1 (by simp)
        rw [← h1]
        by_cases d1 : b1 1 = 73
        · have h2 : b1 2 = b2 2 := h 2 (by simp [d1])
          rw [← h2]
          by_cases d2 : b1 2 = 70
          · have h3 : b1 3 = b2 3 := h 3 (by simp [d1, d2])
            rw [← h3]
            by_cases d3 : b1 3 = 56
            · have h4 : b1 4 = b2 4 := h 4 (by simp [d1, d2, d3])
              rw [← h4]
              by_cases d4 : b1 4 = 55 ∨ b1 4 = 57
              · have h5 : b1 5 = b2 5 := h 5 (by simp [d1, d2, d3, d4])
                rw [← h5]
              · simp [d4]
            · simp [d3]
          · simp [d2]
        · simp [d1]
      · rw [if_neg c3] at h
        rw [if_neg c3, if_neg c3]
        by_cases c4 : b1 0 = 'B'.toNat
        · rw [if_pos c4] at h
          rw [if_pos c4, if_pos c4]
          have h1 : b1 1 = b2 1 := h 1 (by simp)
          rw [← h1]
        · rw [if_neg c4, if_neg c4]

/-! ## image_resize: dispatch, completion and failure -/

/-- The state after the target allocation differs from the loaded state in
outbuf, memory_used, the heap counter and one New event. -/
theorem image_resize_reserved_log (B : Backend) (s : State) (size : Int) :
    (image_resize_padding (image_resize_reserved B s) size).log
      = s.log
        ++ ([Event.New s.next (pix_bytes B.pix_size s.im.target_width s.im.target_height)]
          ++ (if s.im.keep_aspect ≠ 0 then [Event.Zero (some s.next) size] else [])) := by
  obtain ⟨-, -, -, -, -, -, hl⟩ := image_resize_padding_frame (image_resize_reserved B s) size
  rw [hl]
  exact List.append_assoc _ _ _

/-- C13 as stated fails when the int value of the target size is negative.  A
100 x 50 BMP asked for 30000 x 30000 with resize_type 9 and no memory limit:
the target dimensions differ from the source, the budget check passes, and
image_resize ends in New with a negative count, in the state after the load:
the dispatch, and its unknown-resize-type error, is not reached. -/
theorem image_resize_dispatch_not_reached :
    ∃ s1, image_resize_load sample_backend
          (sample_with_resize_type (sample_bmp 100 50 30000 30000 0 0) (resize_type.other 9))
        = Result.ok s1 ∧
      ¬ (s1.im.width = s1.im.target_width ∧ s1.im.height = s1.im.target_height) ∧
      s1.im.memory_limit = 0 ∧
      s1.im.resize_type = resize_type.other 9 ∧
      image_resize sample_backend
          (sample_with_resize_type (sample_bmp 100 50 30000 30000 0 0) (resize_type.other 9))
        = Result.croak Error.New_failed s1 :=
  ⟨_, rfl, by decide, rfl, rfl, rfl⟩

/-- C13 (amended): when, after the load, the target dimensions differ from the
source, the target reservation passes the budget check, the int value of the
target size is non-negative (so that New returns) and resize_type is none of the
four recognised values, image_resize croaks with the unknown-resize-type error,
and the events since the load (the New of the target buffer, and the Zero under
keep_aspect) contain no strategy call. -/
theorem image_resize_unknown_type (B : Backend) (s s1 : State) (n : Int)
    (hload : image_resize_load B s = Result.ok s1)
    (hne : ¬ (s1.im.width = s1.im.target_width ∧ s1.im.height = s1.im.target_height))
    (hbudget : ¬ (s1.im.memory_limit ≠ 0 ∧ s1.im.memory_limit < int_add s1.im.memory_used
      (pix_bytes B.pix_size s1.im.target_width s1.im.target_height)))
    (hnew : 0 ≤ pix_bytes B.pix_size s1.im.target_width s1.im.target_height)
    (hrt : s1.im.resize_type = resize_type.other n) :
    ∃ s2 ev, image_resize B s = Result.croak (Error.unknown_resize_type n) s2 ∧
      s2.log = s1.log ++ ev ∧
      (∀ t, Event.downsize t ∉ ev) ∧
      (∀ t, Event.downsize t ∈ s2.log → Event.downsize t ∈ s1.log) := by
  have e : image_resize B s = image_resize_loaded B s1 := by
    unfold image_resize
    rw [hload]
  have hev : ∀ t, Event.downsize t ∉
      ([Event.New s1.next (pix_bytes B.pix_size s1.im.target_width s1.im.target_height)]
        ++ (if s1.im.keep_aspect ≠ 0 then
            [Event.Zero (some s1.next)
              (pix_bytes B.pix_size s1.im.target_width s1.im.target_height)]
          else [])) := by
    intro t
    split_ifs <;> simp
  rcases image_resize_loaded_cases B s1 with
    ⟨h, -⟩ | ⟨-, h, -⟩ | ⟨-, -, h, -⟩ | ⟨-, -, -, m, hm, h⟩ | ⟨-, -, -, h, -⟩
  · exact absurd h hne
  · exact absurd h hbudget
  · exact absurd hnew (not_le.mpr h)
  · rw [hrt] at hm
    cases hm
    refine ⟨_, _, e.trans h, image_resize_reserved_log B s1 _, hev, ?_⟩
    intro t ht
    rw [image_resize_reserved_log B s1 _, List.mem_append] at ht
    rcases ht with ht | ht
    · exact ht
    · exact absurd ht (hev t)
  · exact absurd hrt (h n)

/-- C13, instance: a 100 x 50 BMP asked for 50 x 50 with resize_type 9. -/
theorem image_resize_unknown_type_witness :
    ∃ s2, image_resize sample_backend
          (sample_with_resize_type (sample_bmp 100 50 50 50 0 0) (resize_type.other 9))
        = Result.croak (Error.unknown_resize_type 9) s2 ∧
      s2.log = [Event.Newz_Buffer 0, Event.buffer_init 0 1024, Event.New 1 20000]
        ++ [Event.New 2 10000] := by
  obtain ⟨s2, ev, h, hl, -, -⟩ :=
    image_resize_unknown_type sample_backend
      (sample_with_resize_type (sample_bmp 100 50 50 50 0 0) (resize_type.other 9))
      (image_resize_load sample_backend
        (sample_with_resize_type (sample_bmp 100 50 50 50 0 0) (resize_type.other 9))).state
      9 rfl (by decide) (by decide) (by decide) rfl
  refine ⟨s2, h, ?_⟩
  have h2 : image_resize sample_backend
      (sample_with_resize_type (sample_bmp 100 50 50 50 0 0) (resize_type.other 9))
      = Result.croak (Error.unknown_resize_type 9)
          (image_resize sample_backend
            (sample_with_resize_type (sample_bmp 100 50 50 50 0 0)
              (resize_type.other 9))).state := rfl
  have h3 := h.symm.trans h2
  cases h3
  decide

/-- The struct after any exit of the part of image_resize after the load has
the padding fields of the loaded struct (equal-size return, memory-limit croak)
or those left by the padding block. -/
theorem image_resize_loaded_padding_fields (B : Backend) (s : State) :
    ((image_resize_loaded B s).state.im.width_padding = s.im.width_padding ∧
      (image_resize_loaded B s).state.im.width_inner = s.im.width_inner ∧
      (image_resize_loaded B s).state.im.height_padding = s.im.height_padding ∧
      (image_resize_loaded B s).state.im.height_inner = s.im.height_inner) ∨
    ((image_resize_loaded B s).state.im.width_padding
        = (image_resize_padding (image_resize_reserved B s)
            (pix_bytes B.pix_size s.im.target_width s.im.target_height)).im.width_padding ∧
      (image_resize_loaded B s).state.im.width_inner
        = (image_resize_padding (image_resize_reserved B s)
            (pix_bytes B.pix_size s.im.target_width s.im.target_height)).im.width_inner ∧
      (image_resize_loaded B s).state.im.height_padding
        = (image_resize_padding (image_resize_reserved B s)
            (pix_bytes B.pix_size s.im.target_width s.im.target_height)).im.height_padding ∧
      (image_resize_loaded B s).state.im.height_inner
        = (image_resize_padding (image_resize_reserved B s)
            (pix_bytes B.pix_size s.im.target_width s.im.target_height)).im.height_inner) := by
  rcases image_resize_loaded_cases B s with
    ⟨-, h⟩ | ⟨-, -, h⟩ | ⟨-, -, -, h⟩ | ⟨-, -, -, m, -, h⟩ | ⟨-, -, -, -, h⟩
  · rw [h]
    exact Or.inl ⟨rfl, rfl, rfl, rfl⟩
  · rw [h]
    exact Or.inl ⟨rfl, rfl, rfl, rfl⟩
  · rw [h]
    exact Or.inl ⟨rfl, rfl, rfl, rfl⟩
  · rw [h]
    exact Or.inr ⟨rfl, rfl, rfl, rfl⟩
  · rw [h]
    exact Or.inr ⟨rfl, rfl, rfl, rfl⟩

/-- Without keep_aspect the padding block changes nothing. -/
theorem image_resize_padding_off (s : State) (size : Int) (hk : s.im.keep_aspect = 0) :
    image_resize_padding s size = s := by
  unfold image_resize_padding
  rw [if_neg (not_not.mpr hk)]

/-- A comparison with NaN on the left is false. -/
theorem ge_nan (y : fval) : fval.ge fval.nan y = false := by
  cases y <;> rfl

/-- A product with NaN is NaN. -/
theorem mul_nan (f : fmt) (x : fval) : f.mul x fval.nan = fval.nan := by
  cases x <;> rfl

/-- A difference with NaN is NaN. -/
theorem sub_nan (f : fmt) (x : fval) : f.sub x fval.nan = fval.nan := by
  cases x <;> rfl

/-- A quotient of NaN is NaN. -/
theorem div_nan (f : fmt) (y : fval) : f.div fval.nan y = fval.nan := by
  cases y <;> rfl

/-- The padding block for a source of width 0 and height 0: source_ar is the
float 0/0, a NaN, the comparison source_ar >= dest_ar is false, and the cast of
NaN stores INT_MIN in width_padding and width_inner. -/
theorem aspect_eval_zero (im : image) (hw : im.width = 0) (hh : im.height = 0) :
    (image_resize_aspect im).width_padding = -2147483648 ∧
    (image_resize_aspect im).width_inner = -2147483648 := by
  have hs : source_ar im = fval.nan := by
    unfold source_ar
    rw [hw, hh]
    rfl
  have hlt : ¬ (source_ar im).ge (dest_ar im) = true := by
    rw [hs, ge_nan]
    exact Bool.false_ne_true
  rw [image_resize_aspect_lt im hlt, hs, mul_nan, sub_nan, div_nan]
  exact ⟨rfl, rfl⟩

/-- Under keep_aspect, once the target reservation has passed, the four padding
fields after the part of image_resize that follows the load are those the
padding block computes. -/
theorem image_resize_loaded_keep_aspect (B : Backend) (s : State)
    (hne : ¬ (s.im.width = s.im.target_width ∧ s.im.height = s.im.target_height))
    (hbudget : ¬ (s.im.memory_limit ≠ 0 ∧ s.im.memory_limit < int_add s.im.memory_used
      (pix_bytes B.pix_size s.im.target_width s.im.target_height)))
    (hnew : 0 ≤ pix_bytes B.pix_size s.im.target_width s.im.target_height)
    (hk : s.im.keep_aspect ≠ 0) :
    (image_resize_loaded B s).state.im.width_padding
      = (image_resize_aspect (image_resize_reserved B s).im).width_padding ∧
    (image_resize_loaded B s).state.im.width_inner
      = (image_resize_aspect (image_resize_reserved B s).im).width_inner ∧
    (image_resize_loaded B s).state.im.height_padding
      = (image_resize_aspect (image_resize_reserved B s).im).height_padding ∧
    (image_resize_loaded B s).state.im.height_inner
      = (image_resize_aspect (image_resize_reserved B s).im).height_inner := by
  have hk2 : (image_resize_reserved B s).im.keep_aspect ≠ 0 := hk
  have hp := image_resize_padding_im (image_resize_reserved B s)
    (pix_bytes B.pix_size s.im.target_width s.im.target_height) hk2
  rcases image_resize_loaded_cases B s with
    ⟨h, -⟩ | ⟨-, h, -⟩ | ⟨-, -, h, -⟩ | ⟨-, -, -, m, -, h⟩ | ⟨-, -, -, -, h⟩
  · exact absurd h hne
  · exact absurd h hbudget
  · exact absurd hnew (not_le.mpr h)
  · rw [h, ← hp]
    exact ⟨rfl, rfl, rfl, rfl⟩
  · rw [h, ← hp]
    exact ⟨rfl, rfl, rfl, rfl⟩

/-- C15 as stated fails.  A fresh context whose header matches no signature has
width = height = 0; with keep_aspect set and a 50 x 50 target the ratios are
equal in the sense of the claim (width * target_height = height * target_width),
source_ar is the float 0/0, and image_resize stores INT_MIN in width_padding.
And for positive dimensions with equal ratios, a 12 x 11270702 source asked for
18 x 16906053: image_resize stores height_padding = -1. -/
theorem image_resize_padding_nonzero_equal_ratio :
    (∃ s0, image_init sample_backend (Source.data [0, 0, 0, 0, 0, 0, 0, 0])
          (sample_state sample_image) = Result.ok s0 ∧
      s0.im.width = 0 ∧ s0.im.height = 0 ∧
      (sample_with_target s0 50 50 1).im.keep_aspect ≠ 0 ∧
      (sample_with_target s0 50 50 1).im.width * (sample_with_target s0 50 50 1).im.target_height
        = (sample_with_target s0 50 50 1).im.height
          * (sample_with_target s0 50 50 1).im.target_width ∧
      (image_resize sample_backend (sample_with_target s0 50 50 1)).state.im.width_padding
        = -2147483648) ∧
    ((sample_bmp 12 11270702 18 16906053 1 0).im.keep_aspect ≠ 0 ∧
      (sample_bmp 12 11270702 18 16906053 1 0).im.width
          * (sample_bmp 12 11270702 18 16906053 1 0).im.target_height
        = (sample_bmp 12 11270702 18 16906053 1 0).im.height
          * (sample_bmp 12 11270702 18 16906053 1 0).im.target_width ∧
      (image_resize sample_backend
        (sample_bmp 12 11270702 18 16906053 1 0)).state.im.height_padding = -1) := by
  constructor
  · refine ⟨_, rfl, rfl, rfl, by decide, by decide, ?_⟩
    have e : image_resize sample_backend
        (sample_with_target (image_init sample_backend (Source.data [0, 0, 0, 0, 0, 0, 0, 0])
          (sample_state sample_image)).state 50 50 1)
        = image_resize_loaded sample_backend
          (sample_with_target (image_init sample_backend (Source.data [0, 0, 0, 0, 0, 0, 0, 0])
            (sample_state sample_image)).state 50 50 1) := rfl
    show (image_resize sample_backend
        (sample_with_target (image_init sample_backend (Source.data [0, 0, 0, 0, 0, 0, 0, 0])
          (sample_state sample_image)).state 50 50 1)).state.im.width_padding = -2147483648
    rw [e, (image_resize_loaded_keep_aspect sample_backend _ (by decide) (by decide)
      (by decide) (by decide)).1]
    exact (aspect_eval_zero _ rfl rfl).1
  · refine ⟨by decide, by decide, ?_⟩
    have e : image_resize sample_backend (sample_bmp 12 11270702 18 16906053 1 0)
        = image_resize_loaded sample_backend
          (image_resize_load sample_backend
            (sample_bmp 12 11270702 18 16906053 1 0)).state := rfl
    rw [e, (image_resize_loaded_keep_aspect sample_backend _ (by decide) (by decide)
      (by decide) (by decide)).2.2.1, aspect_eval_12_18 _ rfl rfl rfl rfl]

/-- C15 (amended): for a loaded state whose four padding fields are 0
(image_init sets them to 0), after image_resize, whatever its exit: the four
fields are 0 when keep_aspect is not set; width_padding and height_padding are 0
when, for positive dimensions below 2^20,
width * target_height = height * target_width; hence, for such dimensions, a
padding field is nonzero only when keep_aspect is set and the ratios differ. -/
theorem image_resize_padding_fields (B : Backend) (s s1 : State)
    (hload : image_resize_load B s = Result.ok s1)
    (h1 : s1.im.width_padding = 0) (h2 : s1.im.width_inner = 0)
    (h3 : s1.im.height_padding = 0) (h4 : s1.im.height_inner = 0) :
    (s1.im.keep_aspect = 0 →
      (image_resize B s).state.im.width_padding = 0 ∧
      (image_resize B s).state.im.width_inner = 0 ∧
      (image_resize B s).state.im.height_padding = 0 ∧
      (image_resize B s).state.im.height_inner = 0) ∧
    (0 < s1.im.width → s1.im.width < 1048576 → 0 < s1.im.height → s1.im.height < 1048576 →
      0 < s1.im.target_width → s1.im.target_width < 1048576 →
      0 < s1.im.target_height → s1.im.target_height < 1048576 →
      s1.im.width * s1.im.target_height = s1.im.height * s1.im.target_width →
      (image_resize B s).state.im.width_padding = 0 ∧
      (image_resize B s).state.im.height_padding = 0) ∧
    (0 < s1.im.width → s1.im.width < 1048576 → 0 < s1.im.height → s1.im.height < 1048576 →
      0 < s1.im.target_width → s1.im.target_width < 1048576 →
      0 < s1.im.target_height → s1.im.target_height < 1048576 →
      ((image_resize B s).state.im.width_padding ≠ 0 ∨
        (image_resize B s).state.im.height_padding ≠ 0) →
      s1.im.keep_aspect ≠ 0 ∧
        s1.im.width * s1.im.target_height ≠ s1.im.height * s1.im.target_width) := by
  have e : image_resize B s = image_resize_loaded B s1 := by
    unfold image_resize
    rw [hload]
  rw [e]
  have hoff : s1.im.keep_aspect = 0 →
      (image_resize_loaded B s1).state.im.width_padding = 0 ∧
      (image_resize_loaded B s1).state.im.width_inner = 0 ∧
      (image_resize_loaded B s1).state.im.height_padding = 0 ∧
      (image_resize_loaded B s1).state.im.height_inner = 0 := by
    intro hk
    rcases image_resize_loaded_padding_fields B s1 with ⟨a, b, c, d⟩ | ⟨a, b, c, d⟩
    · exact ⟨a.trans h1, b.trans h2, c.trans h3, d.trans h4⟩
    · rw [image_resize_padding_off (image_resize_reserved B s1) _ hk] at a b c d
      exact ⟨a.trans h1, b.trans h2, c.trans h3, d.trans h4⟩
  have heq : 0 < s1.im.width → s1.im.width < 1048576 → 0 < s1.im.height →
      s1.im.height < 1048576 → 0 < s1.im.target_width → s1.im.target_width < 1048576 →
      0 < s1.im.target_height → s1.im.target_height < 1048576 →
      s1.im.width * s1.im.target_height = s1.im.height * s1.im.target_width →
      (image_resize_loaded B s1).state.im.width_padding = 0 ∧
      (image_resize_loaded B s1).state.im.height_padding = 0 := by
    intro hw0 hw1 hh0 hh1 htw0 htw1 hth0 hth1 hr
    by_cases hk : s1.im.keep_aspect = 0
    · exact ⟨(hoff hk).1, (hoff hk).2.2.1⟩
    · rcases image_resize_loaded_padding_fields B s1 with ⟨a, -, c, -⟩ | ⟨a, -, c, -⟩
      · exact ⟨a.trans h1, c.trans h3⟩
      · obtain ⟨p, q, -⟩ := aspect_equal_ratio (image_resize_reserved B s1).im
          hw0 hw1 hh0 hh1 htw0 htw1 hth0 hth1 hr
        rw [image_resize_padding_im (image_resize_reserved B s1) _ hk] at a c
        exact ⟨a.trans (q.trans h1), c.trans p⟩
  refine ⟨hoff, heq, ?_⟩
  intro hw0 hw1 hh0 hh1 htw0 htw1 hth0 hth1 hnz
  constructor
  · intro hk
    rcases hnz with h | h
    · exact h (hoff hk).1
    · exact h (hoff hk).2.2.1
  · intro hr
    rcases hnz with h | h
    · exact h (heq hw0 hw1 hh0 hh1 htw0 htw1 hth0 hth1 hr).1
    · exact h (heq hw0 hw1 hh0 hh1 htw0 htw1 hth0 hth1 hr).2

/-- C15, instance: a 100 x 50 BMP asked for 50 x 25 under keep_aspect. -/
theorem image_resize_padding_fields_witness :
    (image_resize sample_backend (sample_bmp 100 50 50 25 1 0)).state.im.width_padding = 0 ∧
    (image_resize sample_backend (sample_bmp 100 50 50 25 1 0)).state.im.height_padding = 0 :=
  (image_resize_padding_fields sample_backend (sample_bmp 100 50 50 25 1 0)
    (image_resize_load sample_backend (sample_bmp 100 50 50 25 1 0)).state
    rfl rfl rfl rfl rfl).2.1 (by decide) (by decide) (by decide) (by decide) (by decide)
    (by decide) (by decide) (by decide) (by decide)

/-! ## The course of memory_used -/

/-- C16 as stated fails, in two ways.  A 20000 x 20000 BMP asked for
15000 x 15000 under a limit of 2000000000 bytes: the load takes memory_used to
1600001024, the target needs 900000000 more, the int sum wraps to -1794966272,
the budget check passes and image_resize returns with memory_used lowered to
that value.  And image_init sets memory_used to 1024 whatever it was: run on a
context whose memory_used is 21024 after an image_alloc, it lowers it. -/
theorem memory_used_decreases :
    (∃ s1 s2, image_resize_load sample_backend (sample_bmp 20000 20000 15000 15000 0 2000000000)
        = Result.ok s1 ∧
      image_resize sample_backend (sample_bmp 20000 20000 15000 15000 0 2000000000)
        = Result.ok s2 ∧
      s1.im.memory_used = 1600001024 ∧ s2.im.memory_used = -1794966272 ∧
      s2.im.memory_used < s1.im.memory_used) ∧
    (∃ s1 s2 s3, image_init sample_backend (Source.data ['B'.toNat, 'M'.toNat, 0, 0, 0, 0, 0, 0])
        (sample_state sample_image) = Result.ok s1 ∧
      image_alloc sample_backend.pix_size s1 100 50 = Result.ok s2 ∧
      image_init sample_backend (Source.data ['B'.toNat, 'M'.toNat, 0, 0, 0, 0, 0, 0]) s2
        = Result.ok s3 ∧
      s2.im.memory_used = 21024 ∧ s3.im.memory_used = 1024 ∧
      s3.im.memory_used < s2.im.memory_used) :=
  ⟨⟨_, _, rfl, rfl, by decide, by decide, by decide⟩,
    ⟨_, _, _, rfl, rfl, rfl, by decide, by decide, by decide⟩⟩

/-- C16 (amended): for a context whose memory_used is an int value, image_alloc
and the part of image_resize after the load never lower memory_used, whatever
their exit, as long as the reserved size is non-negative and memory_used + size
does not exceed the int range; image_finish sets memory_used to 0; image_init
sets it to 1024, whatever it was. -/
theorem memory_used_steps (B : Backend) (s : State)
    (hused : -2147483648 ≤ s.im.memory_used) :
    (∀ width height, 0 ≤ pix_bytes B.pix_size width height →
      s.im.memory_used + pix_bytes B.pix_size width height < 2147483648 →
      s.im.memory_used ≤ (image_alloc B.pix_size s width height).state.im.memory_used) ∧
    (0 ≤ pix_bytes B.pix_size s.im.target_width s.im.target_height →
      s.im.memory_used + pix_bytes B.pix_size s.im.target_width s.im.target_height
        < 2147483648 →
      s.im.memory_used ≤ (image_resize_loaded B s).state.im.memory_used) ∧
    (image_finish B s).im.memory_used = 0 ∧
    (∀ src s0 s1, image_init B src s0 = Result.ok s1 → s1.im.memory_used = 1024) := by
  have hadd : ∀ size : Int, 0 ≤ size → s.im.memory_used + size < 2147483648 →
      s.im.memory_used ≤ int_add s.im.memory_used size := by
    intro size h0 h1
    unfold int_add
    rw [to_int_of_range _ (by linarith) h1]
    linarith
  refine ⟨?_, ?_, rfl, ?_⟩
  · intro width height h0 h1
    dsimp only [image_alloc]
    split
    · exact le_refl _
    · split
      · exact le_refl _
      · exact hadd _ h0 h1
  · intro h0 h1
    obtain ⟨hm, -⟩ := image_resize_padding_memory (image_resize_reserved B s)
      (pix_bytes B.pix_size s.im.target_width s.im.target_height)
    rcases image_resize_loaded_cases B s with
      ⟨-, h⟩ | ⟨-, -, h⟩ | ⟨-, -, -, h⟩ | ⟨-, -, -, m, -, h⟩ | ⟨-, -, -, -, h⟩
    · rw [h]
      exact le_refl _
    · rw [h]
      exact le_refl _
    · rw [h]
      exact le_refl _
    · rw [h]
      show _ ≤ (image_resize_padding (image_resize_reserved B s) _).im.memory_used
      rw [hm]
      exact hadd _ h0 h1
    · rw [h]
      show _ ≤ (image_resize_padding (image_resize_reserved B s) _).im.memory_used
      rw [hm]
      exact hadd _ h0 h1
  · intro src s0 s1 h
    unfold image_init at h
    cases src with
    | data_not_ref sv => cases h
    | file name fh =>
      dsimp only at h
      split at h
      · cases h
      · exact (image_init_read_header_memory B _ s1 h).1
    | data sv =>
      exact (image_init_read_header_memory B _ s1 h).1

/-- C16, instance: image_alloc of a 100 x 50 source on a context after
image_init. -/
theorem memory_used_steps_witness :
    (-2147483648 : Int) ≤ (sample_bmp 100 50 50 50 0 0).im.memory_used ∧
    (sample_bmp 100 50 50 50 0 0).im.memory_used
      ≤ (image_alloc sample_backend.pix_size (sample_bmp 100 50 50 50 0 0) 100 50).state.im.memory_used :=
  ⟨by decide,
    (memory_used_steps sample_backend (sample_bmp 100 50 50 50 0 0) (by decide)).1 100 50
      (by decide) (by decide)⟩

end ImageScale
